import Mathlib

/-!
# p2p-chat: session establishment and duplex stream pump

A shallow embedding of `main.go`.  Go strings are byte sequences; they are
modelled as `List Char`.  Effects (standard output, the log, calls into the
transport layer, `go` statements) are recorded as traces.
-/

namespace P2PChat

/-! ## Buffered line reads -/

/-- The pair returned by `bufio.Reader.ReadString`: the string read and
whether the returned error is non-nil. -/
structure ReadResult where
  str : List Char
  err : Bool
  deriving DecidableEq, Repr

/-- The function `ReadString(delim)` of `bufio.Reader` on a source that holds the bytes
`src` and then reports end of input: it reads until the first occurrence of
`delim` and returns the data up to and including it; when the source ends
before a delimiter it returns the data read so far together with an error.
The second component is the unread rest of the source. -/
def ReadString (delim : Char) : List Char → ReadResult × List Char
  | [] => (⟨[], true⟩, [])
  | c :: cs =>
    if c = delim then (⟨[c], false⟩, cs)
    else
      let r := ReadString delim cs
      (⟨c :: r.1.str, r.1.err⟩, r.2)

/-! ## Inbound unit: `readData` -/

/-- The text `fmt.Printf("\x1b[32m%s\x1b[0m>", str)` writes. -/
def greenPrintf (str : List Char) : List Char :=
  "\x1b[32m".toList ++ str ++ "\x1b[0m>".toList

/-- Observable run of `readData`: the successive `Printf` outputs, the number
of `ReadString` calls completed, and whether the function has returned. -/
structure ReadRun where
  out : List (List Char)
  reads : Nat
  returned : Bool
  deriving DecidableEq, Repr

/-- The `for` loop of `readData` over a reader `rd` (one call of
`rw.ReadString('\n')` maps the reader state to the result and the next
state).  `fuel` bounds the number of iterations observed; a run that is
still inside the loop when the fuel is used up has `returned = false`. -/
def readDataLoop {σ : Type} (rd : σ → ReadResult × σ) :
    Nat → σ → ReadRun → ReadRun
  | 0, _, run => run
  | fuel + 1, rw, run =>
    let r := rd rw
    let str := r.1.str
    if str = [] then
      { run with reads := run.reads + 1, returned := true }
    else if str ≠ ['\n'] then
      readDataLoop rd fuel r.2
        { run with out := run.out ++ [greenPrintf str], reads := run.reads + 1 }
    else
      readDataLoop rd fuel r.2 { run with reads := run.reads + 1 }

/-- The function `readData(rw)`, observed for at most `fuel` iterations of its loop. -/
def readData {σ : Type} (rd : σ → ReadResult × σ) (fuel : Nat) (rw : σ) : ReadRun :=
  readDataLoop rd fuel rw ⟨[], 0, false⟩

/-- A reader that returns a given sequence of read results, one per call. -/
def scripted (reads : Nat → ReadResult) (i : Nat) : ReadResult × Nat :=
  (reads i, i + 1)

/-- A reader over a stream that carries the given bytes and is then closed. -/
def streamReader (rw : List Char) : ReadResult × List Char :=
  ReadString '\n' rw

/-! ## Outbound unit: `writeData` -/

/-- Effects of `writeData`. -/
inductive WriteEvent where
  /-- The call `fmt.Print("> ")` -/
  | prompt
  /-- The call `rw.WriteString(str)` -/
  | writeString (str : List Char)
  /-- The call `rw.Flush()` -/
  | flush
  /-- The call `log.Println(err)` -/
  | logErr
  deriving DecidableEq, Repr

/-- Observable run of `writeData`: its effects in order and whether it has
returned. -/
structure WriteRun where
  events : List WriteEvent
  returned : Bool
  deriving DecidableEq, Repr

/-- The `for` loop of `writeData`; `stdin` is what remains unread of standard
input (followed by end of input).  `fuel` bounds the iterations observed. -/
def writeDataLoop : Nat → List Char → WriteRun → WriteRun
  | 0, _, run => run
  | fuel + 1, stdin, run =>
    let r := ReadString '\n' stdin
    let sendData := r.1.str
    if r.1.err then
      { events := run.events ++ [.prompt, .logErr], returned := true }
    else
      let str := sendData ++ ['\n']
      writeDataLoop fuel r.2
        { run with events := run.events ++ [.prompt, .writeString str, .flush] }

/-- The function `writeData(rw)` reading standard input `stdin`. -/
def writeData (fuel : Nat) (stdin : List Char) : WriteRun :=
  writeDataLoop fuel stdin ⟨[], false⟩

/-- State of the `bufio.Writer` half of `rw`: bytes buffered and bytes
already handed to the stream. -/
structure Wire where
  buffered : List Char
  sent : List Char
  deriving DecidableEq, Repr

/-- Effect of one event of `writeData` on the writer. -/
def Wire.step (w : Wire) : WriteEvent → Wire
  | .writeString s => { w with buffered := w.buffered ++ s }
  | .flush => { buffered := [], sent := w.sent ++ w.buffered }
  | _ => w

/-- The bytes put on the stream by a sequence of events. -/
def wireBytes (evs : List WriteEvent) : List Char :=
  (evs.foldl Wire.step ⟨[], []⟩).sent

/-! ## Command line: `argumentHandling`

`argumentHandling` builds a `flag.FlagSet` of the Go standard library with
error handling `ContinueOnError`, registers three flags and calls `Parse`.
`parseOne` and `Parse` below follow the library's code for flags that are
not boolean; number parsing, error texts and the text of `PrintDefaults`
are parameters.
-/

/-- User store arguments. -/
structure User where
  Host : List Char
  Port : Int
  Username : List Char
  args : List (List Char)
  deriving DecidableEq, Repr

/-- The errors `FlagSet.Parse` can return: `flag.ErrHelp`, or one of the
errors built by `failf` in `parseOne`. -/
inductive FlagError where
  | ErrHelp
  /-- Error text "bad flag syntax: %s" -/
  | badSyntax (s : List Char)
  /-- Error text "flag provided but not defined: -%s" -/
  | notDefined (name : List Char)
  /-- Error text "flag needs an argument: -%s" -/
  | needsArgument (name : List Char)
  /-- Error text "invalid value %q for flag -%s: %v" -/
  | invalidValue (value name : List Char)
  deriving DecidableEq, Repr

/-- Standard-library functions used by the `flag` package whose results are
taken as given: `strconv.ParseInt(s, 0, strconv.IntSize)` (success value or
failure), the text of an error, and the text `FlagSet.PrintDefaults()`
prints for the three registered flags. -/
structure FlagLib where
  ParseInt : List Char → Option Int
  errorText : FlagError → List Char
  PrintDefaults : List Char

/-- The flags registered by `argumentHandling`. -/
inductive Flag where
  | host
  | port
  | username
  deriving DecidableEq, Repr

/-- State of the `flag.FlagSet` built in `argumentHandling`: its name, the
`User` whose fields the flags are bound to, the remaining arguments and the
output buffer. -/
structure FlagSet where
  name : List Char
  user : User
  args : List (List Char)
  buf : List Char
  deriving DecidableEq, Repr

/-- The map `f.formal`: flag lookup by name. -/
def formal (name : List Char) : Option Flag :=
  if name = "host".toList then some .host
  else if name = "port".toList then some .port
  else if name = "username".toList then some .username
  else none

/-- The function `flag.Value.Set(value)` for each registered flag: the string flags always
succeed, the int flag succeeds when `ParseInt` does. -/
def Flag.Set (lib : FlagLib) (u : User) (value : List Char) : Flag → Option User
  | .host => some { u with Host := value }
  | .port => (lib.ParseInt value).map fun n => { u with Port := n }
  | .username => some { u with Username := value }

/-- The text `f.usage()` prints to the output of a flag set of the given
name; no `Usage` function is set, so it is that of `defaultUsage`: a header
line with the name, then the defaults. -/
def defaultUsage (lib : FlagLib) (name : List Char) : List Char :=
  (if name = [] then "Usage:\n".toList
   else "Usage of ".toList ++ name ++ ":\n".toList) ++ lib.PrintDefaults

/-- The function `f.failf(...)`: prints the error and the usage to the flag set's output
and returns the error. -/
def FlagSet.failf (lib : FlagLib) (f : FlagSet) (e : FlagError) :
    Bool × Option FlagError × FlagSet :=
  (false, some e,
    { f with buf := f.buf ++ lib.errorText e ++ ['\n'] ++ defaultUsage lib f.name })

/-- The scan of `parseOne` for an equals sign at an index of at least 1:
the flag name, and the value when the argument has the form `name=value`. -/
def splitEquals : List Char → List Char × Option (List Char)
  | [] => ([], none)
  | c :: cs =>
    match (cs.span fun x => x ≠ '=') with
    | (_, []) => (c :: cs, none)
    | (pre, _ :: value) => (c :: pre, some value)

/-- The function `f.parseOne()`: parses one flag; reports whether a flag was seen. -/
def FlagSet.parseOne (lib : FlagLib) (f : FlagSet) : Bool × Option FlagError × FlagSet :=
  match f.args with
  | [] => (false, none, f)
  | s :: rest =>
    if s.length < 2 ∨ s.head? ≠ some '-' then (false, none, f)
    else if s = ['-', '-'] then (false, none, { f with args := rest })
    else
      let numMinuses := if s.get? 1 = some '-' then 2 else 1
      let name := s.drop numMinuses
      if name.length = 0 ∨ name.head? = some '-' ∨ name.head? = some '=' then
        f.failf lib (.badSyntax s)
      else
        let f := { f with args := rest }
        let nv := splitEquals name
        let name := nv.1
        match formal name with
        | none =>
          if name = "help".toList ∨ name = "h".toList then
            (false, some .ErrHelp, { f with buf := f.buf ++ defaultUsage lib f.name })
          else f.failf lib (.notDefined name)
        | some flag =>
          match nv.2, f.args with
          | none, [] => f.failf lib (.needsArgument name)
          | none, value :: args =>
            let f := { f with args := args }
            match flag.Set lib f.user value with
            | none => f.failf lib (.invalidValue value name)
            | some u => (true, none, { f with user := u })
          | some value, _ =>
            match flag.Set lib f.user value with
            | none => f.failf lib (.invalidValue value name)
            | some u => (true, none, { f with user := u })

/-- The loop of `f.Parse` (error handling `ContinueOnError`): call `parseOne`
until it sees no flag.  Every seen flag consumes an argument, so `fuel`
larger than the number of arguments is never used up. -/
def parseLoop (lib : FlagLib) : Nat → FlagSet → Option FlagError × FlagSet
  | 0, f => (none, f)
  | fuel + 1, f =>
    let r := f.parseOne lib
    if r.1 then parseLoop lib fuel r.2.2
    else (r.2.1, r.2.2)

/-- The function `f.Parse(arguments)`. -/
def FlagSet.Parse (lib : FlagLib) (f : FlagSet) (arguments : List (List Char)) :
    Option FlagError × FlagSet :=
  parseLoop lib (arguments.length + 1) { f with args := arguments }

/-- The function `argumentHandling(binName, args)`: the returned user (`none` for nil),
the output and the error (`none` for nil). -/
def argumentHandling (lib : FlagLib) (binName : List Char) (args : List (List Char)) :
    Option User × List Char × Option FlagError :=
  let user : User := ⟨"default".toList, 8080, "Anonymous".toList, []⟩
  let flags : FlagSet := ⟨binName, user, [], []⟩
  let r := flags.Parse lib args
  match r.1 with
  | some err => (none, r.2.buf, some err)
  | none => (some { r.2.user with args := r.2.args }, r.2.buf, none)

/-- A reading of plain decimal numerals (an optional minus sign and digits),
on which it agrees with `strconv.ParseInt`; used to instantiate `FlagLib`. -/
def decimalInt (s : List Char) : Option Int :=
  let digits : List Char → Option Nat := fun ds =>
    if ds ≠ [] ∧ ds.all Char.isDigit then
      some (ds.foldl (fun (n : Nat) d => 10 * n + (d.toNat - 48)) 0)
    else none
  match s with
  | '-' :: ds => (digits ds).map fun n => - (n : Int)
  | ds => (digits ds).map fun n => (n : Int)

/-- A concrete `FlagLib`, with short stand-in texts. -/
def sampleLib : FlagLib where
  ParseInt := decimalInt
  errorText := fun _ => "flag error".toList
  PrintDefaults := "  -host string\n".toList

/-! ## Transport layer and session establishment -/

/-- An error value, identified by its message. -/
abbrev Error := List Char

/-- A multiaddress, in its textual form. -/
abbrev Multiaddr := List Char

/-- A network stream, identified by a number. -/
abbrev Stream := Nat

/-- A `*bufio.ReadWriter` over a stream; `none` is the nil pointer. -/
abbrev ReadWriter := Option Stream

/-- The value of `peer.AddrInfo`. -/
structure AddrInfo where
  ID : List Char
  Addrs : List Multiaddr
  deriving DecidableEq, Repr

/-- The `host.Host` interface as far as the program uses it: the printed peer
identity, the addresses, the listen addresses, and the outcome of
`NewStream(ctx, id, pid)`. -/
structure Host where
  ID : List Char
  Addrs : List Multiaddr
  ListenAddresses : List Multiaddr
  NewStream : List Char → List Char → Except Error Stream

/-- How a call that builds a value can end: with the value, with an error,
or in a run-time panic. -/
inductive Outcome (α : Type) where
  | ok (a : α)
  | error (err : Error)
  | panic

/-- The error of an outcome, if it is one. -/
def Outcome.error? {α : Type} : Outcome α → Option Error
  | .error err => some err
  | _ => none

/-- The functions of the transport libraries whose results are taken as
given: `multiaddr.NewMultiaddr`, `peer.AddrInfoFromP2pAddr`,
`la.ValueForProtocol(multiaddr.P_TCP)`, `crypto.GenerateKeyPairWithReader`
(the error, if any) and `libp2p.New` for a listen address, which is `none`
when the address passed is nil. -/
structure Transport where
  NewMultiaddr : List Char → Except Error Multiaddr
  AddrInfoFromP2pAddr : Multiaddr → Except Error AddrInfo
  ValueForProtocolTCP : Multiaddr → Except Error (List Char)
  GenerateKeyPair : Option Error
  New : Option Multiaddr → Outcome Host

/-- The two pump functions started with a `go` statement. -/
inductive Goroutine where
  | readData (rw : ReadWriter)
  | writeData (rw : ReadWriter)
  deriving DecidableEq, Repr

/-- Function values of type `network.StreamHandler` defined by the program. -/
inductive StreamHandler where
  | handleStream
  deriving DecidableEq, Repr

/-- Effects of the session-establishment code, in program order. -/
inductive Event where
  /-- output of `fmt.Println` -/
  | stdout (text : List Char)
  /-- a line written by `log.Println` or `log.Printf` -/
  | log (text : List Char)
  /-- The call `multiaddr.NewMultiaddr(s)` -/
  | newMultiaddr (s : List Char)
  /-- The call `peer.AddrInfoFromP2pAddr(adr)` -/
  | addrInfoFromP2pAddr (adr : Multiaddr)
  /-- The call `h.Peerstore().AddAddrs(id, addrs, peerstore.PermanentAddrTTL)` -/
  | addAddrs (id : List Char) (addrs : List Multiaddr)
  /-- The call `h.NewStream(ctx, id, pid)` -/
  | newStream (id : List Char) (pid : List Char)
  /-- The call `h.SetStreamHandler(pid, handler)` -/
  | setStreamHandler (pid : List Char) (handler : StreamHandler)
  /-- a `go` statement -/
  | go (g : Goroutine)
  deriving DecidableEq, Repr

/-- The function `handleStream(s)`. -/
def handleStream (s : Stream) : List Event :=
  let rw : ReadWriter := some s
  [.log "Got a new stream!".toList, .go (.readData rw), .go (.writeData rw)]

/-- Calling a stream handler value. -/
def StreamHandler.call : StreamHandler → Stream → List Event
  | .handleStream, s => P2PChat.handleStream s

/-- The loop of `startPeerAndHost` that retrieves the tcp port: the value of
the first listen address that has one, else the empty string. -/
def findPort (net : Transport) : List Multiaddr → List Char
  | [] => []
  | la :: rest =>
    match net.ValueForProtocolTCP la with
    | .ok p => p
    | .error _ => findPort net rest

/-- The function `startPeerAndHost(h, streamHandler)`. -/
def startPeerAndHost (net : Transport) (h : Host) (streamHandler : StreamHandler) :
    List Event :=
  let port := findPort net h.ListenAddresses
  if port = [] then
    [.setStreamHandler "/chat/1.0.0".toList streamHandler,
     .log "was not able to find actual local port".toList]
  else
    [.setStreamHandler "/chat/1.0.0".toList streamHandler,
     .log ("Run './main -host /ip4/127.0.0.1/tcp/".toList ++ port ++ "/p2p/".toList
            ++ h.ID ++ "' on another terminal.".toList),
     .log "You can replace 127.0.0.1 with public IP for connection on different computer.".toList,
     .log "Waiting for incoming connection...".toList]

/-- The function `startPeerAndConnect(h, hostAdr)`: its effects and the returned pair. -/
def startPeerAndConnect (net : Transport) (h : Host) (hostAdr : List Char) :
    List Event × ReadWriter × Option Error :=
  let evs : List Event :=
    [.log "This node's addresses:".toList]
      ++ h.Addrs.map (fun la => .log (" - ".toList ++ la)) ++ [.log []]
  match net.NewMultiaddr hostAdr with
  | .error err => (evs ++ [.newMultiaddr hostAdr, .log err], none, some err)
  | .ok adr =>
    match net.AddrInfoFromP2pAddr adr with
    | .error err =>
      (evs ++ [.newMultiaddr hostAdr, .addrInfoFromP2pAddr adr, .log err], none, some err)
    | .ok info =>
      let evs := evs ++ [.newMultiaddr hostAdr, .addrInfoFromP2pAddr adr,
        .addAddrs info.ID info.Addrs, .newStream info.ID "/chat/1.0.0".toList]
      match h.NewStream info.ID "/chat/1.0.0".toList with
      | .error err => (evs ++ [.log err], none, some err)
      | .ok s =>
        (evs ++ [.log "Established connection to destination".toList], some s, none)

/-- The function `dispatchUser(user, h)`. -/
def dispatchUser (net : Transport) (user : User) (h : Host) : List Event :=
  if user.Host = "default".toList then
    startPeerAndHost net h .handleStream
  else
    let r := startPeerAndConnect net h user.Host
    let rw := r.2.1
    match r.2.2 with
    | some err => r.1 ++ [.log err]
    | none => r.1 ++ [.go (.writeData rw), .go (.readData rw)]

/-- The function `makeHost(port, rand)`: its effects and how it ends.  The error of
`NewMultiaddr` is discarded, so a listen address that does not parse reaches
`libp2p.New` as nil. -/
def makeHost (net : Transport) (port : Int) : List Event × Outcome Host :=
  match net.GenerateKeyPair with
  | some err => ([.log err], .error err)
  | none =>
    let s := "/ip4/0.0.0.0/tcp/".toList ++ (toString port).toList
    let adr := match net.NewMultiaddr s with
      | .ok a => some a
      | .error _ => none
    ([.newMultiaddr s], net.New adr)

/-- How a function or the process stands after its effects: it has returned,
exited with a code, or is blocked for ever (`select {}`). -/
inductive Status where
  | returned
  | exited (code : Nat)
  | blocked
  /-- a run-time panic (nil dereference) -/
  | panicked
  deriving DecidableEq, Repr

/-- Effects and final status. -/
structure Run where
  events : List Event
  status : Status
  deriving DecidableEq, Repr

/-- The exit code of the process once it has ended: the code passed to
`os.Exit`, 0 when `main` returns, 2 after a panic. -/
def Status.exitCode : Status → Option Nat
  | .returned => some 0
  | .exited code => some code
  | .panicked => some 2
  | .blocked => none

/-- The function `startPeerToPeer(user)`. -/
def startPeerToPeer (net : Transport) (user : User) : Run :=
  let r := makeHost net user.Port
  match r.2 with
  | .error err => ⟨r.1 ++ [.log err], .returned⟩
  | .ok h => ⟨r.1 ++ dispatchUser net user h, .blocked⟩
  | .panic => ⟨r.1, .panicked⟩

/-- The function `main()` with `os.Args[0] = binName` and `os.Args[1:] = args`.  When
`main` returns the process exits with code 0. -/
def main (lib : FlagLib) (net : Transport) (binName : List Char) (args : List (List Char)) :
    Run :=
  let r := argumentHandling lib binName args
  let output := r.2.1
  match r.2.2 with
  | some err =>
    if err = .ErrHelp then
      ⟨[.stdout (output ++ ['\n'])], .exited 2⟩
    else
      ⟨[.stdout ("got error: ".toList ++ lib.errorText err ++ ['\n']),
        .stdout ("output:\n ".toList ++ output ++ ['\n'])], .exited 1⟩
  | none =>
    match r.1 with
    | none => ⟨[], .panicked⟩
    | some user =>
      let p := startPeerToPeer net user
      match p.status with
      | .returned => ⟨p.events, .exited 0⟩
      | st => ⟨p.events, st⟩

/-! ## The process as a transition system -/

/-- State of the running process: whether `dispatchUser` has been called, the
stream handlers registered with the host, and the pump goroutines that are
running. -/
structure Process where
  dispatched : Bool
  handlers : List (List Char × StreamHandler)
  pumps : List Goroutine
  deriving DecidableEq, Repr

/-- Effect of one program event on the process state. -/
def Process.apply (p : Process) : Event → Process
  | .setStreamHandler pid handler => { p with handlers := (pid, handler) :: p.handlers }
  | .go g => { p with pumps := p.pumps ++ [g] }
  | _ => p

/-- What can happen to the process: `dispatchUser` is called (once, by
`startPeerToPeer`), the transport accepts an inbound stream for a protocol
and invokes the registered handler, a pump goroutine returns. -/
inductive Step where
  | dispatch
  | accept (pid : List Char) (s : Stream)
  | pumpEnds (g : Goroutine)
  deriving DecidableEq, Repr

/-- One transition. -/
def Process.step (net : Transport) (user : User) (h : Host) (p : Process) : Step → Process
  | .dispatch =>
    if p.dispatched then p
    else (dispatchUser net user h).foldl Process.apply { p with dispatched := true }
  | .accept pid s =>
    match p.handlers.lookup pid with
    | some handler => (handler.call s).foldl Process.apply p
    | none => p
  | .pumpEnds g => { p with pumps := p.pumps.erase g }

/-- The state reached from startup by a sequence of steps. -/
def Process.run (net : Transport) (user : User) (h : Host) (steps : List Step) : Process :=
  steps.foldl (Process.step net user h) ⟨false, [], []⟩

/-- The stream a pump goroutine works on. -/
def Goroutine.stream : Goroutine → Option Stream
  | .readData rw => rw
  | .writeData rw => rw

/-- Number of sessions (streams) that have a running pump. -/
def activeSessions (p : Process) : Nat :=
  (p.pumps.filterMap Goroutine.stream).dedup.length

/-- Number of inbound streams accepted for a protocol in a sequence of steps. -/
def acceptCount (pid : List Char) (steps : List Step) : Nat :=
  (steps.filter fun st => match st with
    | .accept q _ => q = pid
    | _ => false).length

/-- A host whose `NewStream` succeeds with stream 0. -/
def sampleHost : Host where
  ID := "QmHost".toList
  Addrs := ["/ip4/127.0.0.1/tcp/8080".toList]
  ListenAddresses := ["/ip4/0.0.0.0/tcp/8080".toList]
  NewStream := fun _ _ => .ok 0

/-- A transport in which everything succeeds; `libp2p.New` panics on a nil
listen address. -/
def sampleNet : Transport where
  NewMultiaddr := fun s => .ok s
  AddrInfoFromP2pAddr := fun adr => .ok ⟨"QmPeer".toList, [adr]⟩
  ValueForProtocolTCP := fun _ => .ok "8080".toList
  GenerateKeyPair := none
  New := fun adr => match adr with
    | some _ => .ok sampleHost
    | none => .panic

/-- A transport in which key generation fails. -/
def failingNet : Transport where
  NewMultiaddr := fun s => .ok s
  AddrInfoFromP2pAddr := fun adr => .ok ⟨"QmPeer".toList, [adr]⟩
  ValueForProtocolTCP := fun _ => .error "no tcp".toList
  GenerateKeyPair := some "key generation failed".toList
  New := fun _ => .error "listen failed".toList

/-- A transport on a machine where the listen port is taken: keys and
addresses are fine, `libp2p.New` returns an error. -/
def busyPortNet : Transport where
  NewMultiaddr := fun s => .ok s
  AddrInfoFromP2pAddr := fun adr => .ok ⟨"QmPeer".toList, [adr]⟩
  ValueForProtocolTCP := fun _ => .ok "8080".toList
  GenerateKeyPair := none
  New := fun adr => match adr with
    | some _ => .error "failed to listen on any addresses".toList
    | none => .panic

/-- A transport whose `NewMultiaddr` refuses the tcp port 65536, as the
library does for ports above 65535. -/
def strictNet : Transport where
  NewMultiaddr := fun s =>
    if s = "/ip4/0.0.0.0/tcp/65536".toList then .error "invalid value for tcp".toList
    else .ok s
  AddrInfoFromP2pAddr := fun adr => .ok ⟨"QmPeer".toList, [adr]⟩
  ValueForProtocolTCP := fun _ => .ok "8080".toList
  GenerateKeyPair := none
  New := fun adr => match adr with
    | some _ => .ok sampleHost
    | none => .panic

/-- A host whose `NewStream` fails. -/
def unreachableHost : Host where
  ID := "QmHost".toList
  Addrs := []
  ListenAddresses := []
  NewStream := fun _ _ => .error "dial failed".toList

/-! ## Descriptions used in the statements -/

/-- What the inbound unit renders for a list of read strings none of which is
empty: the highlighted text of each string other than the bare delimiter. -/
def rendered (strs : List (List Char)) : List (List Char) :=
  (strs.filter fun s => s ≠ ['\n']).map greenPrintf

/-- The strings of the first `n` reads of a sequence of read results. -/
def firstReads (reads : Nat → ReadResult) (n : Nat) : List (List Char) :=
  (List.range n).map fun j => (reads j).str

/-- Local input made of the given lines, each typed text followed by one
newline. -/
def typedInput (lines : List (List Char)) : List Char :=
  lines.flatMap fun t => t ++ ['\n']

/-- The name a flag is registered under. -/
def Flag.name : Flag → List Char
  | .host => "host".toList
  | .port => "port".toList
  | .username => "username".toList

/-- A flag on the command line together with the value that follows it. -/
structure FlagArg where
  flag : Flag
  value : List Char
  deriving DecidableEq, Repr

/-- The two arguments a flag with its value takes: `-name` and the value. -/
def FlagArg.toArgs (a : FlagArg) : List (List Char) :=
  ['-' :: a.flag.name, a.value]

/-- The argument list that gives the flags `fs` in order, each followed by
its value. -/
def flagArgs (fs : List FlagArg) : List (List Char) :=
  fs.flatMap FlagArg.toArgs

/-- A flag argument is valid when the value of `-port` is an integer. -/
def FlagArg.valid (lib : FlagLib) (a : FlagArg) : Prop :=
  a.flag = .port → lib.ParseInt a.value ≠ none

/-- The value given for a flag: that of its last occurrence, if any. -/
def lastValue (fl : Flag) (fs : List FlagArg) : Option (List Char) :=
  ((fs.filter fun a => a.flag = fl).getLast?).map FlagArg.value

/-- The user a valid argument list stands for, starting from given field
values: each field holds the value given for its flag, or is left as it was
when the flag is absent. -/
def userFrom (lib : FlagLib) (u : User) (fs : List FlagArg) : User where
  Host := (lastValue .host fs).getD u.Host
  Port := ((lastValue .port fs).bind lib.ParseInt).getD u.Port
  Username := (lastValue .username fs).getD u.Username
  args := u.args

/-- The user a valid argument list followed by the positional arguments
`rest` stands for: flag values over the defaults. -/
def expectedUser (lib : FlagLib) (fs : List FlagArg) (rest : List (List Char)) : User :=
  { userFrom lib ⟨"default".toList, 8080, "Anonymous".toList, []⟩ fs with args := rest }

/-- Positional arguments: a list that does not start with something the
parser reads as a flag (two or more characters, the first a minus sign). -/
def positional (rest : List (List Char)) : Prop :=
  ∀ s ∈ rest.head?, s.length < 2 ∨ s.head? ≠ some '-'

/-- The address of the fourth row of the table of `TestArgumentHandlingValid`. -/
def testAddr : List Char :=
  "/ip4/127.0.0.1/tcp/8080/p2p/QmSyD8a7ww7mPvJj34oDDY49kwzoe9QAp4zjBUGJcEZuv5".toList

/-- The table `tests` of `TestArgumentHandlingValid`: argument lists with the
user each is paired with. -/
def testTable : List (List (List Char) × User) :=
  [([],
     ⟨"default".toList, 8080, "Anonymous".toList, []⟩),
   (["-port".toList, "8000".toList, "-username".toList, "Maxime D".toList],
     ⟨"default".toList, 8000, "Maxime D".toList, []⟩),
   (["-port".toList, "8000".toList, "-username".toList, "Maxime D".toList],
     ⟨"default".toList, 8000, "Maxime D".toList, []⟩),
   (["-host".toList, testAddr, "-username".toList, "Thomas".toList],
     ⟨testAddr, 8000, "Thomas".toList, []⟩)]

/-- The application-protocol identifier. -/
def chatProtocol : List Char := "/chat/1.0.0".toList

/-- The event is a `go` statement. -/
def Event.isGo : Event → Bool
  | .go _ => true
  | _ => false

/-- The event registers a stream handler. -/
def Event.isSetStreamHandler : Event → Bool
  | .setStreamHandler _ _ => true
  | _ => false

/-- The event opens a stream to a peer. -/
def Event.isNewStream : Event → Bool
  | .newStream _ _ => true
  | _ => false

/-- The event parses an address string. -/
def Event.isNewMultiaddr : Event → Bool
  | .newMultiaddr _ => true
  | _ => false

/-- The event stores addresses in the peer store. -/
def Event.isAddAddrs : Event → Bool
  | .addAddrs _ _ => true
  | _ => false

/-- The ways `startPeerAndConnect` can fail with error `err` on an address
string: the string does not parse, the peer identity cannot be extracted
from the parsed address, or opening the stream fails. -/
def ConnectFails (net : Transport) (h : Host) (hostAdr : List Char) (err : Error) : Prop :=
  net.NewMultiaddr hostAdr = .error err ∨
  (∃ adr, net.NewMultiaddr hostAdr = .ok adr ∧ net.AddrInfoFromP2pAddr adr = .error err) ∨
  (∃ adr info, net.NewMultiaddr hostAdr = .ok adr ∧ net.AddrInfoFromP2pAddr adr = .ok info ∧
    h.NewStream info.ID "/chat/1.0.0".toList = .error err)

/-- The registration an event makes, if it is one. -/
def Event.handlerOf : Event → Option (List Char × StreamHandler)
  | .setStreamHandler pid handler => some (pid, handler)
  | _ => none

/-- The goroutine an event starts, if it starts one. -/
def Event.goOf : Event → Option Goroutine
  | .go g => some g
  | _ => none

/-- The streams that have a running pump, with repetitions. -/
def Process.streams (p : Process) : List Stream :=
  p.pumps.filterMap Goroutine.stream

/-- What storing one valid flag value does to the user. -/
def FlagArg.store (lib : FlagLib) (u : User) (a : FlagArg) : User :=
  (a.flag.Set lib u a.value).getD u

/-- A sequence of reads: a line, a bare delimiter, unterminated data that
comes with an error, then the empty read. -/
def sampleReads (i : Nat) : ReadResult :=
  [⟨"hi\n".toList, false⟩, ⟨"\n".toList, false⟩, ⟨"yo".toList, true⟩].getD i ⟨[], true⟩

/-- The text a failed parse leaves in the output buffer of a flag set of the
given name: for a help request the usage, for any other error the error
line followed by the usage. -/
def diagnostic (lib : FlagLib) (name : List Char) (err : FlagError) : List Char :=
  if err = .ErrHelp then defaultUsage lib name
  else lib.errorText err ++ ['\n'] ++ defaultUsage lib name

/-! ## Theorems: the stream pump -/

theorem greenPrintf_injective : Function.Injective greenPrintf := by
  intro a b hab
  unfold greenPrintf at hab
  exact List.append_cancel_left (List.append_cancel_right hab)

theorem ReadString_line (t rest : List Char) (ht : '\n' ∉ t) :
    ReadString '\n' (t ++ '\n' :: rest) = (⟨t ++ ['\n'], false⟩, rest) := by
  induction t with
  | nil => simp [ReadString]
  | cons c cs ih =>
    have hc : c ≠ '\n' := fun h => ht (by simp [h])
    have hcs : '\n' ∉ cs := fun h => ht (by simp [h])
    simp [ReadString, hc, ih hcs]

theorem ReadString_remainder (r : List Char) (hr : '\n' ∉ r) :
    ReadString '\n' r = (⟨r, true⟩, []) := by
  induction r with
  | nil => simp [ReadString]
  | cons c cs ih =>
    have hc : c ≠ '\n' := fun h => hr (by simp [h])
    have hcs : '\n' ∉ cs := fun h => hr (by simp [h])
    simp [ReadString, hc, ih hcs]

theorem rendered_append (a b : List (List Char)) :
    rendered (a ++ b) = rendered a ++ rendered b := by
  simp [rendered]

/-- The loop over a scripted reader, started at read `i`, when none of the
next `n` reads is empty and the fuel covers exactly these reads. -/
theorem readDataLoop_running (reads : Nat → ReadResult) :
    ∀ (n i : Nat) (run : ReadRun),
      (∀ j, i ≤ j → j < i + n → (reads j).str ≠ []) →
      readDataLoop (scripted reads) n i run
        = ⟨run.out ++ rendered ((List.range' i n).map fun j => (reads j).str),
            run.reads + n, run.returned⟩ := by
  intro n
  induction n with
  | zero => intro i run _; simp [readDataLoop, rendered]
  | succ n ih =>
    intro i run h
    have hi : (reads i).str ≠ [] := h i (le_refl _) (by omega)
    have hrest : ∀ j, i + 1 ≤ j → j < i + 1 + n → (reads j).str ≠ [] :=
      fun j h1 h2 => h j (by omega) (by omega)
    by_cases hnl : (reads i).str = ['\n']
    · simp [readDataLoop, scripted, hi, hnl, ih (i + 1) _ hrest, List.range'_succ,
        rendered, Nat.add_assoc, Nat.add_comm 1 n]
    · simp [readDataLoop, scripted, hi, hnl, ih (i + 1) _ hrest, List.range'_succ,
        rendered, Nat.add_assoc, Nat.add_comm 1 n]

/-- The loop over a scripted reader, started at read `i`, when the first
empty read is read `i + n` and the fuel reaches it. -/
theorem readDataLoop_returns (reads : Nat → ReadResult) :
    ∀ (n i fuel : Nat) (run : ReadRun),
      (∀ j, i ≤ j → j < i + n → (reads j).str ≠ []) →
      (reads (i + n)).str = [] → n < fuel →
      readDataLoop (scripted reads) fuel i run
        = ⟨run.out ++ rendered ((List.range' i n).map fun j => (reads j).str),
            run.reads + n + 1, true⟩ := by
  intro n
  induction n with
  | zero =>
    intro i fuel run _ hk hf
    obtain ⟨f, rfl⟩ : ∃ f, fuel = f + 1 := ⟨fuel - 1, by omega⟩
    have hk' : (reads i).str = [] := by simpa using hk
    simp [readDataLoop, scripted, hk', rendered]
  | succ n ih =>
    intro i fuel run h hk hf
    obtain ⟨f, rfl⟩ : ∃ f, fuel = f + 1 := ⟨fuel - 1, by omega⟩
    have hi : (reads i).str ≠ [] := h i (le_refl _) (by omega)
    have hrest : ∀ j, i + 1 ≤ j → j < i + 1 + n → (reads j).str ≠ [] :=
      fun j h1 h2 => h j (by omega) (by omega)
    have hk' : (reads (i + 1 + n)).str = [] := by
      have : i + 1 + n = i + (n + 1) := by omega
      rw [this]; exact hk
    have hf' : n < f := by omega
    by_cases hnl : (reads i).str = ['\n']
    · simp [readDataLoop, scripted, hi, hnl, ih (i + 1) f _ hrest hk' hf',
        List.range'_succ, rendered, Nat.add_assoc, Nat.add_comm 1 n]
    · simp [readDataLoop, scripted, hi, hnl, ih (i + 1) f _ hrest hk' hf',
        List.range'_succ, rendered, Nat.add_assoc, Nat.add_comm 1 n]

/-- Every entry the loop adds to the output is the highlighted text of one of
the reads it made, and that read is neither empty nor the bare delimiter. -/
theorem readDataLoop_out (reads : Nat → ReadResult) :
    ∀ (fuel i : Nat) (run : ReadRun) (o : List Char),
      o ∈ (readDataLoop (scripted reads) fuel i run).out →
      o ∈ run.out ∨ ∃ j, i ≤ j ∧ j < i + fuel ∧ o = greenPrintf (reads j).str
        ∧ (reads j).str ≠ ['\n'] ∧ (reads j).str ≠ [] := by
  intro fuel
  induction fuel with
  | zero => intro i run o ho; exact Or.inl (by simpa [readDataLoop] using ho)
  | succ n ih =>
    intro i run o ho
    by_cases he : (reads i).str = []
    · exact Or.inl (by simpa [readDataLoop, scripted, he] using ho)
    · by_cases hnl : (reads i).str = ['\n']
      · have ho' : o ∈ (readDataLoop (scripted reads) n (i + 1)
            { run with reads := run.reads + 1 }).out := by
          simpa [readDataLoop, scripted, he, hnl] using ho
        rcases ih _ _ _ ho' with h | ⟨j, h1, h2, h3⟩
        · exact Or.inl h
        · exact Or.inr ⟨j, by omega, by omega, h3⟩
      · have ho' : o ∈ (readDataLoop (scripted reads) n (i + 1)
            { run with out := run.out ++ [greenPrintf (reads i).str],
                       reads := run.reads + 1 }).out := by
          simpa [readDataLoop, scripted, he, hnl] using ho
        rcases ih _ _ _ ho' with h | ⟨j, h1, h2, h3⟩
        · rcases List.mem_append.mp h with h | h
          · exact Or.inl h
          · exact Or.inr ⟨i, le_refl _, by omega, by simpa using h, hnl, he⟩
        · exact Or.inr ⟨j, by omega, by omega, h3⟩

/-- C1: for every sequence of read results and every number of loop
iterations observed, `readData` never renders the bare delimiter: the
highlighted form of the single newline is not in its output, and every entry
of the output is the highlighted text of one of the reads made, whose string
is neither the single newline nor empty. -/
theorem readData_never_renders_bare_delimiter (reads : Nat → ReadResult) (fuel : Nat) :
    greenPrintf ['\n'] ∉ (readData (scripted reads) fuel 0).out ∧
    ∀ o ∈ (readData (scripted reads) fuel 0).out,
      ∃ j, j < fuel ∧ o = greenPrintf (reads j).str
        ∧ (reads j).str ≠ ['\n'] ∧ (reads j).str ≠ [] := by
  have key : ∀ o ∈ (readData (scripted reads) fuel 0).out,
      ∃ j, j < fuel ∧ o = greenPrintf (reads j).str
        ∧ (reads j).str ≠ ['\n'] ∧ (reads j).str ≠ [] := by
    intro o ho
    rcases readDataLoop_out reads fuel 0 ⟨[], 0, false⟩ o ho with h | ⟨j, _, h2, h3⟩
    · simp at h
    · exact ⟨j, by omega, h3⟩
  refine ⟨?_, key⟩
  intro hmem
  obtain ⟨j, _, heq, hne, _⟩ := key _ hmem
  exact hne (greenPrintf_injective heq).symm

/-- C4: when read `k` is the first read that returns the empty string,
`readData` returns exactly there: with enough iterations observed it has made
`k + 1` reads, has returned, and has rendered, in order, the reads before
read `k` that are not the bare delimiter; observed for `k` iterations or
fewer it has not returned, whatever errors the non-empty reads carried. -/
theorem readData_ends_at_first_empty_read (reads : Nat → ReadResult) (k : Nat)
    (hk : (reads k).str = []) (hfirst : ∀ j, j < k → (reads j).str ≠ []) :
    (∀ fuel, k < fuel →
      readData (scripted reads) fuel 0 = ⟨rendered (firstReads reads k), k + 1, true⟩) ∧
    (∀ fuel, fuel ≤ k →
      readData (scripted reads) fuel 0 = ⟨rendered (firstReads reads fuel), fuel, false⟩) := by
  constructor
  · intro fuel hf
    have h := readDataLoop_returns reads k 0 fuel ⟨[], 0, false⟩
      (fun j _ h2 => hfirst j (by omega)) (by simpa using hk) hf
    simpa [readData, firstReads, List.range_eq_range'] using h
  · intro fuel hf
    have h := readDataLoop_running reads fuel 0 ⟨[], 0, false⟩
      (fun j _ h2 => hfirst j (by omega))
    simpa [readData, firstReads, List.range_eq_range'] using h

theorem readData_ends_at_first_empty_read_witness :
    (sampleReads 3).str = [] ∧ (∀ j, j < 3 → (sampleReads j).str ≠ []) ∧
    readData (scripted sampleReads) 4 0
      = ⟨[greenPrintf "hi\n".toList, greenPrintf "yo".toList], 4, true⟩ := by
  refine ⟨by decide, by decide, ?_⟩
  have h := (readData_ends_at_first_empty_read sampleReads 3 (by decide) (by decide)).1 4
    (by decide)
  rw [h]
  decide

/-! ### The outbound unit -/

/-- The loop of `writeData` on input made of complete lines followed by an
unterminated remainder. -/
theorem writeDataLoop_lines (r : List Char) (hr : '\n' ∉ r) :
    ∀ (lines : List (List Char)) (fuel : Nat) (run : WriteRun),
      (∀ t ∈ lines, '\n' ∉ t) → lines.length < fuel →
      writeDataLoop fuel (typedInput lines ++ r) run
        = ⟨run.events
            ++ (lines.flatMap fun t =>
                  [.prompt, .writeString (t ++ ['\n'] ++ ['\n']), .flush])
            ++ [.prompt, .logErr], true⟩ := by
  intro lines
  induction lines with
  | nil =>
    intro fuel run _ hf
    obtain ⟨f, rfl⟩ : ∃ f, fuel = f + 1 := ⟨fuel - 1, by simp at hf; omega⟩
    simp [writeDataLoop, typedInput, ReadString_remainder r hr]
  | cons t ts ih =>
    intro fuel run hl hf
    obtain ⟨f, rfl⟩ : ∃ f, fuel = f + 1 := ⟨fuel - 1, by simp at hf; omega⟩
    have ht : '\n' ∉ t := hl t (by simp)
    have hts : ∀ t ∈ ts, '\n' ∉ t := fun x hx => hl x (by simp [hx])
    have hf' : ts.length < f := by simp at hf; omega
    have hin : typedInput (t :: ts) ++ r = t ++ '\n' :: (typedInput ts ++ r) := by
      simp [typedInput]
    rw [hin]
    simp [writeDataLoop, ReadString_line t _ ht, ih f _ hts hf']

/-- Before the end of the input is reached the loop has not returned. -/
theorem writeDataLoop_pending (r : List Char) :
    ∀ (lines : List (List Char)) (fuel : Nat) (run : WriteRun),
      (∀ t ∈ lines, '\n' ∉ t) → fuel ≤ lines.length →
      (writeDataLoop fuel (typedInput lines ++ r) run).returned = run.returned := by
  intro lines
  induction lines with
  | nil =>
    intro fuel run _ hf
    have : fuel = 0 := by simpa using hf
    subst this
    simp [writeDataLoop]
  | cons t ts ih =>
    intro fuel run hl hf
    cases fuel with
    | zero => simp [writeDataLoop]
    | succ f =>
      have ht : '\n' ∉ t := hl t (by simp)
      have hts : ∀ t ∈ ts, '\n' ∉ t := fun x hx => hl x (by simp [hx])
      have hf' : f ≤ ts.length := by simp at hf; omega
      have hin : typedInput (t :: ts) ++ r = t ++ '\n' :: (typedInput ts ++ r) := by
        simp [typedInput]
      rw [hin]
      simp [writeDataLoop, ReadString_line t _ ht, ih f _ hts hf']

/-- C3: on local input made of the lines `t ++ "\n"` for `t` in `lines`
followed by an unterminated remainder `r` and end of input, `writeData`
returns (once its loop has run `lines.length + 1` times, and not before), and
its effects are, for each line in order, the prompt, one write of the line as
read with one more line terminator appended, and one flush right after the
write; the failing read is logged and nothing is written for `r`. -/
theorem writeData_writes_each_line_then_stops (lines : List (List Char)) (r : List Char)
    (hlines : ∀ t ∈ lines, '\n' ∉ t) (hr : '\n' ∉ r) :
    (∀ fuel, lines.length < fuel →
      writeData fuel (typedInput lines ++ r)
        = ⟨(lines.flatMap fun t =>
              [.prompt, .writeString ((t ++ ['\n']) ++ ['\n']), .flush])
            ++ [.prompt, .logErr], true⟩) ∧
    (∀ fuel, fuel ≤ lines.length →
      (writeData fuel (typedInput lines ++ r)).returned = false) := by
  constructor
  · intro fuel hf
    simpa [writeData] using writeDataLoop_lines r hr lines fuel ⟨[], false⟩ hlines hf
  · intro fuel hf
    simpa [writeData] using writeDataLoop_pending r lines fuel ⟨[], false⟩ hlines hf

theorem writeData_writes_each_line_then_stops_witness :
    (∀ t ∈ ["hello".toList, "".toList], '\n' ∉ t) ∧ '\n' ∉ "ab".toList ∧
    writeData 3 "hello\n\nab".toList
      = ⟨[.prompt, .writeString "hello\n\n".toList, .flush,
          .prompt, .writeString "\n\n".toList, .flush,
          .prompt, .logErr], true⟩ := by
  refine ⟨by decide, by decide, ?_⟩
  have h := (writeData_writes_each_line_then_stops ["hello".toList, "".toList] "ab".toList
    (by decide) (by decide)).1 3 (by decide)
  have hin : typedInput ["hello".toList, "".toList] ++ "ab".toList = "hello\n\nab".toList := by
    decide
  rw [hin] at h
  rw [h]
  decide

/-! ### Round trip -/

/-- The writer after the events of a sequence of complete iterations of
`writeData`: everything written has been flushed, in order. -/
theorem foldl_Wire_step_lines :
    ∀ (lines : List (List Char)) (w : Wire), w.buffered = [] →
      (lines.flatMap fun t =>
          [WriteEvent.prompt, .writeString ((t ++ ['\n']) ++ ['\n']), .flush]).foldl
        Wire.step w
        = ⟨[], w.sent ++ lines.flatMap fun t => (t ++ ['\n']) ++ ['\n']⟩ := by
  intro lines
  induction lines with
  | nil => intro w hw; cases w; simp_all
  | cons t ts ih =>
    intro w hw
    simp only [List.flatMap_cons, List.foldl_append, List.foldl_cons, List.foldl_nil,
      Wire.step]
    rw [ih _ rfl]
    simp [hw]

/-- The bytes `writeData` puts on the stream for typed lines: each line as
read followed by one more newline. -/
theorem wireBytes_writeData (lines : List (List Char)) (r : List Char)
    (hlines : ∀ t ∈ lines, '\n' ∉ t) (hr : '\n' ∉ r) (fuel : Nat) (hf : lines.length < fuel) :
    wireBytes (writeData fuel (typedInput lines ++ r)).events
      = lines.flatMap fun t => (t ++ ['\n']) ++ ['\n'] := by
  have hw := writeDataLoop_lines r hr lines fuel ⟨[], false⟩ hlines hf
  simp only [List.nil_append] at hw
  rw [writeData, hw]
  simp only [wireBytes, List.foldl_append, List.foldl_cons, List.foldl_nil]
  rw [foldl_Wire_step_lines lines _ rfl]
  simp [Wire.step]

/-- One iteration of the loop on a read of the bare delimiter. -/
theorem readDataLoop_skip {σ : Type} (rd : σ → ReadResult × σ) (fuel : Nat) (rw rw' : σ)
    (run : ReadRun) (r : ReadResult) (h : rd rw = (r, rw')) (hs : r.str = ['\n']) :
    readDataLoop rd (fuel + 1) rw run
      = readDataLoop rd fuel rw' { run with reads := run.reads + 1 } := by
  simp [readDataLoop, h, hs]

/-- One iteration of the loop on a read that is rendered. -/
theorem readDataLoop_render {σ : Type} (rd : σ → ReadResult × σ) (fuel : Nat) (rw rw' : σ)
    (run : ReadRun) (r : ReadResult) (h : rd rw = (r, rw')) (he : r.str ≠ [])
    (hs : r.str ≠ ['\n']) :
    readDataLoop rd (fuel + 1) rw run
      = readDataLoop rd fuel rw'
          { run with out := run.out ++ [greenPrintf r.str], reads := run.reads + 1 } := by
  simp [readDataLoop, h, hs, he]

/-- The loop of `readData` on the bytes of typed lines as put on the stream
by `writeData`. -/
theorem readDataLoop_wire :
    ∀ (lines : List (List Char)) (fuel : Nat) (run : ReadRun),
      (∀ t ∈ lines, '\n' ∉ t) → 2 * lines.length < fuel →
      readDataLoop streamReader fuel (lines.flatMap fun t => (t ++ ['\n']) ++ ['\n']) run
        = ⟨run.out ++ ((lines.filter fun t => t ≠ []).map fun t => greenPrintf (t ++ ['\n'])),
            run.reads + 2 * lines.length + 1, true⟩ := by
  intro lines
  induction lines with
  | nil =>
    intro fuel run _ hf
    obtain ⟨f, rfl⟩ : ∃ f, fuel = f + 1 := ⟨fuel - 1, by simp at hf; omega⟩
    simp [readDataLoop, streamReader, ReadString]
  | cons t ts ih =>
    intro fuel run hl hf
    obtain ⟨f, rfl⟩ : ∃ f, fuel = f + 2 := ⟨fuel - 2, by simp at hf; omega⟩
    have ht : '\n' ∉ t := hl t (by simp)
    have hts : ∀ t ∈ ts, '\n' ∉ t := fun x hx => hl x (by simp [hx])
    have hf' : 2 * ts.length < f := by simp at hf; omega
    have hin : ((t :: ts).flatMap fun t => (t ++ ['\n']) ++ ['\n'])
        = t ++ '\n' :: ('\n' :: (ts.flatMap fun t => (t ++ ['\n']) ++ ['\n'])) := by
      simp
    have hnl : streamReader ('\n' :: (ts.flatMap fun t => (t ++ ['\n']) ++ ['\n']))
        = (⟨['\n'], false⟩, ts.flatMap fun t => (t ++ ['\n']) ++ ['\n']) := by
      simp [streamReader, ReadString]
    rw [hin]
    have h1 : streamReader (t ++ '\n' :: ('\n' :: (ts.flatMap fun t => (t ++ ['\n']) ++ ['\n'])))
        = (⟨t ++ ['\n'], false⟩, '\n' :: (ts.flatMap fun t => (t ++ ['\n']) ++ ['\n'])) :=
      ReadString_line t _ ht
    by_cases hte : t = []
    · have h1' : t ++ ['\n'] = ['\n'] := by simp [hte]
      rw [readDataLoop_skip streamReader _ _ _ _ _ h1 h1',
        readDataLoop_skip streamReader _ _ _ _ _ hnl rfl, ih f _ hts hf']
      simp [hte, Nat.mul_add, Nat.add_assoc]
      omega
    · have hne : t ++ ['\n'] ≠ ['\n'] := by
        intro h
        have := congrArg List.length h
        simp at this
        exact hte this
      rw [readDataLoop_render streamReader _ _ _ _ _ h1 (by simp) hne,
        readDataLoop_skip streamReader _ _ _ _ _ hnl rfl, ih f _ hts hf']
      simp [hte, Nat.mul_add, Nat.add_assoc]
      omega

/-- C2, as the code has it: for typed lines free of newlines, feeding the
bytes `writeData` puts on the stream into `readData` renders, in the order
typed, each non-empty typed line verbatim together with its newline between
the highlight escape codes, renders nothing for an empty typed line and
nothing else; the inbound unit makes two reads per line and ends, once the
stream is closed, on the empty read that follows. -/
theorem round_trip_renders_nonempty_lines_with_delimiter (lines : List (List Char))
    (fw fr : Nat) (hlines : ∀ t ∈ lines, '\n' ∉ t)
    (hfw : lines.length < fw) (hfr : 2 * lines.length < fr) :
    readData streamReader fr (wireBytes (writeData fw (typedInput lines)).events)
      = ⟨(lines.filter fun t => t ≠ []).map fun t => greenPrintf (t ++ ['\n']),
          2 * lines.length + 1, true⟩ := by
  have hw := wireBytes_writeData lines [] hlines (by simp) fw hfw
  rw [List.append_nil] at hw
  rw [hw, readData, readDataLoop_wire lines _ _ hlines hfr]
  simp

theorem round_trip_renders_nonempty_lines_with_delimiter_witness :
    (∀ t ∈ ["hello".toList, "".toList, "you".toList], '\n' ∉ t) ∧
    readData streamReader 7 (wireBytes (writeData 4 "hello\n\nyou\n".toList).events)
      = ⟨[greenPrintf "hello\n".toList, greenPrintf "you\n".toList], 7, true⟩ := by
  refine ⟨by decide, ?_⟩
  have h := round_trip_renders_nonempty_lines_with_delimiter
    ["hello".toList, "".toList, "you".toList] 4 7 (by decide) (by decide) (by decide)
  have hin : typedInput ["hello".toList, "".toList, "you".toList] = "hello\n\nyou\n".toList := by
    decide
  rw [hin] at h
  simpa using h

/-- C2 as stated fails: typing the line "hello" renders the text "hello\n",
newline included, not "hello"; and typing an empty line renders nothing. -/
theorem round_trip_delimiter_not_removed :
    (readData streamReader 3 (wireBytes (writeData 2 (typedInput ["hello".toList])).events)).out
        = [greenPrintf "hello\n".toList] ∧
    (readData streamReader 3 (wireBytes (writeData 2 (typedInput ["hello".toList])).events)).out
        ≠ ["hello".toList].map greenPrintf ∧
    (readData streamReader 3 (wireBytes (writeData 2 (typedInput [[]])).events)).out
        ≠ [([] : List Char)].map greenPrintf := by
  decide

/-! ## Theorems: the command line -/

theorem parseOne_flagArg (lib : FlagLib) (nm : List Char) (u : User) (a : FlagArg)
    (more : List (List Char)) (buf : List Char) (ha : a.valid lib) :
    FlagSet.parseOne lib ⟨nm, u, a.toArgs ++ more, buf⟩
      = (true, none, ⟨nm, a.store lib u, more, buf⟩) := by
  obtain ⟨fl, v⟩ := a
  cases fl with
  | host => rfl
  | username => rfl
  | port =>
    have hv : lib.ParseInt v ≠ none := ha rfl
    obtain ⟨n, hn⟩ := Option.ne_none_iff_exists'.mp hv
    have : FlagSet.parseOne lib ⟨nm, u, (FlagArg.mk .port v).toArgs ++ more, buf⟩
        = match Flag.port.Set lib u v with
          | none => FlagSet.failf lib ⟨nm, u, more, buf⟩ (.invalidValue v "port".toList)
          | some u' => (true, none, ⟨nm, u', more, buf⟩) := rfl
    rw [this]
    simp [Flag.Set, FlagArg.store, hn]

theorem parseOne_positional (lib : FlagLib) (f : FlagSet) (h : positional f.args) :
    f.parseOne lib = (false, none, f) := by
  unfold FlagSet.parseOne
  cases hargs : f.args with
  | nil => rfl
  | cons s rest =>
    have hs : s.length < 2 ∨ s.head? ≠ some '-' := h s (by simp [hargs])
    simp only [hs, if_true]

/-- A call of `parseOne` that sees a flag consumes at least one argument. -/
theorem parseOne_seen_consumes (lib : FlagLib) (f : FlagSet)
    (h : (f.parseOne lib).1 = true) :
    (f.parseOne lib).2.2.args.length < f.args.length := by
  obtain ⟨nm, u, args, buf⟩ := f
  cases args with
  | nil => simp [FlagSet.parseOne] at h
  | cons s rest =>
    by_cases h1 : s.length < 2 ∨ s.head? ≠ some '-'
    · simp [FlagSet.parseOne, h1] at h
    by_cases h2 : s = ['-', '-']
    · simp [FlagSet.parseOne, h2] at h
    simp only [FlagSet.parseOne, h1, h2, if_false] at h ⊢
    generalize s.drop (if s.get? 1 = some '-' then 2 else 1) = name at h ⊢
    by_cases h3 : name.length = 0 ∨ name.head? = some '-' ∨ name.head? = some '='
    · rw [if_pos h3] at h
      simp [FlagSet.failf] at h
    rw [if_neg h3] at h ⊢
    cases hform : formal (splitEquals name).1 with
    | none =>
      simp only [hform] at h
      split_ifs at h
      all_goals simp [FlagSet.failf] at h
    | some flag =>
      simp only [hform] at h ⊢
      cases hv : (splitEquals name).2 with
      | none =>
        cases rest with
        | nil => simp [hv, FlagSet.failf] at h
        | cons value more =>
          simp only [hv] at h ⊢
          cases hset : flag.Set lib u value with
          | none => simp [hset, FlagSet.failf] at h
          | some u' => simp [hset]; omega
      | some value =>
        simp only [hv] at h ⊢
        cases hset : flag.Set lib u value with
        | none => simp [hset, FlagSet.failf] at h
        | some u' => simp [hset]

/-- The parse loop never uses up fuel that exceeds the number of arguments:
its result is the same for every such fuel. -/
theorem parseLoop_fuel (lib : FlagLib) :
    ∀ (fuel₁ fuel₂ : Nat) (f : FlagSet), f.args.length < fuel₁ → f.args.length < fuel₂ →
      parseLoop lib fuel₁ f = parseLoop lib fuel₂ f := by
  intro fuel₁
  induction fuel₁ with
  | zero => intro fuel₂ f h; omega
  | succ n ih =>
    intro fuel₂ f h1 h2
    obtain ⟨m, rfl⟩ : ∃ m, fuel₂ = m + 1 := ⟨fuel₂ - 1, by omega⟩
    simp only [parseLoop]
    by_cases hs : (f.parseOne lib).1 = true
    · have := parseOne_seen_consumes lib f hs
      simp only [hs, if_true]
      exact ih m _ (by omega) (by omega)
    · simp only [hs]
      rfl
/-- The parse loop on a valid argument list followed by positional
arguments stores every flag and stops at the positional arguments, writing
nothing to the output, whenever the fuel exceeds the number of flags. -/
theorem parseLoop_flagArgs (lib : FlagLib) (nm : List Char) (rest : List (List Char))
    (buf : List Char) (hrest : positional rest) :
    ∀ (fs : List FlagArg) (u : User) (fuel : Nat),
      (∀ a ∈ fs, a.valid lib) → fs.length < fuel →
      parseLoop lib fuel ⟨nm, u, flagArgs fs ++ rest, buf⟩
        = (none, ⟨nm, fs.foldl (FlagArg.store lib) u, rest, buf⟩) := by
  intro fs
  induction fs with
  | nil =>
    intro u fuel _ hf
    obtain ⟨f, rfl⟩ : ∃ f, fuel = f + 1 := ⟨fuel - 1, by simp at hf; omega⟩
    simp [parseLoop, flagArgs, parseOne_positional lib ⟨nm, u, rest, buf⟩ hrest]
  | cons a fs ih =>
    intro u fuel hv hf
    obtain ⟨f, rfl⟩ : ∃ f, fuel = f + 1 := ⟨fuel - 1, by simp at hf; omega⟩
    have ha : a.valid lib := hv a (by simp)
    have hfs : ∀ b ∈ fs, b.valid lib := fun b hb => hv b (by simp [hb])
    have hf' : fs.length < f := by simp at hf; omega
    have hargs : flagArgs (a :: fs) ++ rest = a.toArgs ++ (flagArgs fs ++ rest) := by
      simp [flagArgs]
    rw [hargs]
    simp only [parseLoop, parseOne_flagArg lib nm u a _ buf ha, if_true, List.foldl_cons]
    exact ih _ f hfs hf'

theorem flagArgs_length (fs : List FlagArg) : (flagArgs fs).length = 2 * fs.length := by
  induction fs with
  | nil => rfl
  | cons a fs ih => simp [flagArgs, FlagArg.toArgs] at ih ⊢; omega

theorem lastValue_concat (fl : Flag) (fs : List FlagArg) (a : FlagArg) :
    lastValue fl (fs ++ [a]) = if a.flag = fl then some a.value else lastValue fl fs := by
  unfold lastValue
  by_cases h : a.flag = fl
  · simp [List.filter_append, h, List.getLast?_concat]
  · simp [List.filter_append, h]

theorem foldl_store_eq_userFrom (lib : FlagLib) (u : User) (fs : List FlagArg)
    (hv : ∀ a ∈ fs, a.valid lib) :
    fs.foldl (FlagArg.store lib) u = userFrom lib u fs := by
  induction fs using List.reverseRecOn with
  | nil => cases u; simp [userFrom, lastValue]
  | append_singleton fs a ih =>
    have hfs : ∀ b ∈ fs, b.valid lib := fun b hb => hv b (by simp [hb])
    have ha : a.valid lib := hv a (by simp)
    rw [List.foldl_append, ih hfs]
    obtain ⟨fl, v⟩ := a
    cases fl with
    | host => simp [FlagArg.store, Flag.Set, userFrom, lastValue_concat]
    | username => simp [FlagArg.store, Flag.Set, userFrom, lastValue_concat]
    | port =>
      obtain ⟨n, hn⟩ := Option.ne_none_iff_exists'.mp (ha rfl)
      simp [FlagArg.store, Flag.Set, userFrom, lastValue_concat, hn]

/-- The result of `argumentHandling` on a valid argument list followed by
positional arguments. -/
theorem argumentHandling_flagArgs (lib : FlagLib) (binName : List Char) (fs : List FlagArg)
    (rest : List (List Char)) (hv : ∀ a ∈ fs, a.valid lib) (hrest : positional rest) :
    argumentHandling lib binName (flagArgs fs ++ rest)
      = (some (expectedUser lib fs rest), [], none) := by
  have hf : fs.length < (flagArgs fs ++ rest).length + 1 := by
    rw [List.length_append, flagArgs_length]; omega
  simp only [argumentHandling, FlagSet.Parse]
  rw [parseLoop_flagArgs lib binName rest [] hrest fs _ _ hv hf,
    foldl_store_eq_userFrom lib _ fs hv]
  rfl

/-- A parse error makes `argumentHandling` return a nil user. -/
theorem argumentHandling_error_user (lib : FlagLib) (binName : List Char)
    (args : List (List Char)) (h : (argumentHandling lib binName args).2.2 ≠ none) :
    (argumentHandling lib binName args).1 = none := by
  dsimp only [argumentHandling] at h ⊢
  generalize FlagSet.Parse lib _ args = r at h ⊢
  rcases r with ⟨_ | e, f⟩
  · exact absurd rfl h
  · rfl

/-- C8: for every valid argument list (the flags -host, -port with an integer
value and -username in any order and number, each followed by its value),
`argumentHandling` returns a nil error and empty output, and two runs on the
same binary name and argument list return equal users and equal, empty,
outputs. -/
theorem argumentHandling_valid_no_error_no_output (lib : FlagLib) (binName : List Char)
    (fs : List FlagArg) (hv : ∀ a ∈ fs, a.valid lib) :
    (argumentHandling lib binName (flagArgs fs)).2.2 = none ∧
    (argumentHandling lib binName (flagArgs fs)).2.1 = [] ∧
    (argumentHandling lib binName (flagArgs fs)).1 ≠ none ∧
    ∀ r₁ r₂, r₁ = argumentHandling lib binName (flagArgs fs) →
      r₂ = argumentHandling lib binName (flagArgs fs) →
      r₁.1 = r₂.1 ∧ r₁.2.1 = r₂.2.1 ∧ r₂.2.1 = [] := by
  have h := argumentHandling_flagArgs lib binName fs [] hv (by simp [positional])
  rw [List.append_nil] at h
  refine ⟨by rw [h], by rw [h], by rw [h]; simp, ?_⟩
  intro r₁ r₂ h₁ h₂
  subst h₁ h₂
  exact ⟨rfl, rfl, by rw [h]⟩

theorem argumentHandling_valid_no_error_no_output_witness :
    (∀ a ∈ [FlagArg.mk .port "8000".toList, FlagArg.mk .username "Maxime D".toList],
      a.valid sampleLib) ∧
    (argumentHandling sampleLib "main".toList
      ["-port".toList, "8000".toList, "-username".toList, "Maxime D".toList]).2.2 = none ∧
    (argumentHandling sampleLib "main".toList
      ["-port".toList, "8000".toList, "-username".toList, "Maxime D".toList]).2.1 = [] := by
  have hv : ∀ a ∈ [FlagArg.mk .port "8000".toList, FlagArg.mk .username "Maxime D".toList],
      a.valid sampleLib := by
    intro a ha
    simp only [List.mem_cons, List.mem_singleton, List.not_mem_nil, or_false] at ha
    rcases ha with rfl | rfl
    · intro _; decide
    · intro h; cases h
  have h := argumentHandling_valid_no_error_no_output sampleLib "main".toList
    [FlagArg.mk .port "8000".toList, FlagArg.mk .username "Maxime D".toList] hv
  exact ⟨hv, h.1, h.2.1⟩

/-- The first three rows of the test table: the user `argumentHandling`
returns is the one the table lists. -/
theorem argumentHandling_table_rows (lib : FlagLib) (binName : List Char)
    (hp : lib.ParseInt "8000".toList = some 8000) :
    ∀ row ∈ testTable.take 3, (argumentHandling lib binName row.1).1 = some row.2 := by
  have h0 := argumentHandling_flagArgs lib binName [] [] (by simp) (by simp [positional])
  have hv : ∀ a ∈ [FlagArg.mk .port "8000".toList, FlagArg.mk .username "Maxime D".toList],
      a.valid lib := by
    intro a ha
    simp only [List.mem_cons, List.mem_singleton, List.not_mem_nil, or_false] at ha
    rcases ha with rfl | rfl
    · intro _; rw [hp]; exact Option.some_ne_none _
    · intro h; cases h
  have h1 := argumentHandling_flagArgs lib binName
    [FlagArg.mk .port "8000".toList, FlagArg.mk .username "Maxime D".toList] []
    hv (by simp [positional])
  have e0 : expectedUser lib [] [] = ⟨"default".toList, 8080, "Anonymous".toList, []⟩ := rfl
  have e1 : expectedUser lib
      [FlagArg.mk .port "8000".toList, FlagArg.mk .username "Maxime D".toList] []
      = ⟨"default".toList, (lib.ParseInt "8000".toList).getD 8080, "Maxime D".toList, []⟩ :=
    rfl
  rw [hp] at e1
  have r0 : (argumentHandling lib binName []).1
      = some ⟨"default".toList, 8080, "Anonymous".toList, []⟩ := by
    have : flagArgs [] ++ ([] : List (List Char)) = [] := rfl
    rw [this] at h0
    rw [h0, e0]
  have r1 : (argumentHandling lib binName
      ["-port".toList, "8000".toList, "-username".toList, "Maxime D".toList]).1
      = some ⟨"default".toList, 8000, "Maxime D".toList, []⟩ := by
    have : flagArgs [FlagArg.mk .port "8000".toList, FlagArg.mk .username "Maxime D".toList]
        ++ ([] : List (List Char))
        = ["-port".toList, "8000".toList, "-username".toList, "Maxime D".toList] := rfl
    rw [this] at h1
    rw [h1, e1]
    rfl
  intro row hrow
  have hrow' : row = ([], ⟨"default".toList, 8080, "Anonymous".toList, []⟩) ∨
      row = (["-port".toList, "8000".toList, "-username".toList, "Maxime D".toList],
        ⟨"default".toList, 8000, "Maxime D".toList, []⟩) := by
    simp only [testTable, List.take_succ_cons, List.take_zero, List.mem_cons,
      List.not_mem_nil, or_false] at hrow
    rcases hrow with h | h | h
    · exact Or.inl h
    · exact Or.inr h
    · exact Or.inr h
  rcases hrow' with rfl | rfl
  · exact r0
  · exact r1

/-- C9, as the code has it: for every valid argument list, followed by
positional arguments, the user returned by `argumentHandling` holds in Host,
Port and Username the value given for the flag (the last one when a flag is
repeated), a flag that is absent leaves its field at the default (Host
"default", Port 8080, Username "Anonymous"), and args holds the positional
arguments; this is the expected user of the first three rows of the test
table (reading "8000" as the integer 8000); and on a parse error the
returned user is nil. -/
theorem argumentHandling_user_fields (lib : FlagLib) (binName : List Char)
    (fs : List FlagArg) (rest : List (List Char))
    (hv : ∀ a ∈ fs, a.valid lib) (hrest : positional rest) :
    (argumentHandling lib binName (flagArgs fs ++ rest)).1
      = some ⟨(lastValue .host fs).getD "default".toList,
              ((lastValue .port fs).bind lib.ParseInt).getD 8080,
              (lastValue .username fs).getD "Anonymous".toList,
              rest⟩ ∧
    (lib.ParseInt "8000".toList = some 8000 →
      ∀ row ∈ testTable.take 3, (argumentHandling lib binName row.1).1 = some row.2) ∧
    ∀ args, (argumentHandling lib binName args).2.2 ≠ none →
      (argumentHandling lib binName args).1 = none := by
  refine ⟨?_, fun hp => argumentHandling_table_rows lib binName hp,
    fun args h => argumentHandling_error_user lib binName args h⟩
  rw [argumentHandling_flagArgs lib binName fs rest hv hrest]
  rfl

theorem argumentHandling_user_fields_witness :
    (∀ a ∈ [FlagArg.mk .host testAddr, FlagArg.mk .username "Thomas".toList],
      a.valid sampleLib) ∧
    positional ["peer".toList] ∧
    (argumentHandling sampleLib "main".toList
      ["-host".toList, testAddr, "-username".toList, "Thomas".toList, "peer".toList]).1
      = some ⟨testAddr, 8080, "Thomas".toList, ["peer".toList]⟩ := by
  have hv : ∀ a ∈ [FlagArg.mk .host testAddr, FlagArg.mk .username "Thomas".toList],
      a.valid sampleLib := by
    intro a ha
    simp only [List.mem_cons, List.mem_singleton, List.not_mem_nil, or_false] at ha
    rcases ha with rfl | rfl <;> (intro h; cases h)
  have hp : positional ["peer".toList] := by
    intro s hs
    simp only [List.head?_cons, Option.mem_def, Option.some.injEq] at hs
    subst hs
    decide
  have h := (argumentHandling_user_fields sampleLib "main".toList
    [FlagArg.mk .host testAddr, FlagArg.mk .username "Thomas".toList] ["peer".toList] hv hp).1
  exact ⟨hv, hp, h⟩

/-- C9 as stated fails on the fourth row of the test table: for the arguments
-host, an address, -username, "Thomas" the table lists Port 8000, and
`argumentHandling` returns the default Port 8080. -/
theorem argumentHandling_differs_from_test_table_row4 :
    testTable.get? 3
      = some (["-host".toList, testAddr, "-username".toList, "Thomas".toList],
          ⟨testAddr, 8000, "Thomas".toList, []⟩) ∧
    (argumentHandling sampleLib "main".toList
      ["-host".toList, testAddr, "-username".toList, "Thomas".toList]).1
      = some ⟨testAddr, 8080, "Thomas".toList, []⟩ ∧
    (argumentHandling sampleLib "main".toList
      ["-host".toList, testAddr, "-username".toList, "Thomas".toList]).1
      ≠ some ⟨testAddr, 8000, "Thomas".toList, []⟩ := by
  decide

theorem defaultUsage_ne_nil (lib : FlagLib) (name : List Char) :
    defaultUsage lib name ≠ [] := by
  unfold defaultUsage
  by_cases h : name = []
  · simp [h]
  · simp [h]

theorem diagnostic_ne_nil (lib : FlagLib) (name : List Char) (err : FlagError) :
    diagnostic lib name err ≠ [] := by
  unfold diagnostic
  by_cases h : err = .ErrHelp
  · rw [if_pos h]; exact defaultUsage_ne_nil lib name
  · rw [if_neg h]; simp

/-- What one call of `parseOne` does to the output buffer: nothing when it
returns no error; with an error it has seen no flag and has appended the
diagnostic text of that error. -/
theorem parseOne_buf (lib : FlagLib) (f : FlagSet) :
    (f.parseOne lib).2.2.name = f.name ∧
    ((f.parseOne lib).2.1 = none → (f.parseOne lib).2.2.buf = f.buf) ∧
    (∀ e, (f.parseOne lib).2.1 = some e →
      (f.parseOne lib).1 = false ∧
      (f.parseOne lib).2.2.buf = f.buf ++ diagnostic lib f.name e) := by
  obtain ⟨nm, u, args, buf⟩ := f
  cases args with
  | nil => simp [FlagSet.parseOne]
  | cons s rest =>
    by_cases h1 : s.length < 2 ∨ s.head? ≠ some '-'
    · simp [FlagSet.parseOne, h1]
    by_cases h2 : s = ['-', '-']
    · simp [FlagSet.parseOne, h2]
    simp only [FlagSet.parseOne, h1, h2, if_false]
    generalize s.drop (if s.get? 1 = some '-' then 2 else 1) = name
    by_cases h3 : name.length = 0 ∨ name.head? = some '-' ∨ name.head? = some '='
    · rw [if_pos h3]
      simp [FlagSet.failf, diagnostic]
    rw [if_neg h3]
    cases hform : formal (splitEquals name).1 with
    | none =>
      by_cases hh : (splitEquals name).1 = "help".toList ∨ (splitEquals name).1 = "h".toList
      · simp only [if_pos hh]
        simp [diagnostic]
      · simp only [if_neg hh]
        simp [FlagSet.failf, diagnostic]
    | some flag =>
      cases hv : (splitEquals name).2 with
      | none =>
        cases rest with
        | nil => simp [FlagSet.failf, diagnostic]
        | cons value more =>
          cases hset : flag.Set lib u value with
          | none => simp [hset, FlagSet.failf, diagnostic]
          | some u' => simp [hset]
      | some value =>
        cases hset : flag.Set lib u value with
        | none => simp [hset, FlagSet.failf, diagnostic]
        | some u' => simp [hset]

/-- The output buffer after the parse loop: unchanged when the loop returns
no error, extended by the diagnostic text of the error when it returns one. -/
theorem parseLoop_buf (lib : FlagLib) :
    ∀ (fuel : Nat) (f : FlagSet),
      (parseLoop lib fuel f).2.name = f.name ∧
      ((parseLoop lib fuel f).1 = none → (parseLoop lib fuel f).2.buf = f.buf) ∧
      (∀ e, (parseLoop lib fuel f).1 = some e →
        (parseLoop lib fuel f).2.buf = f.buf ++ diagnostic lib f.name e) := by
  intro fuel
  induction fuel with
  | zero => intro f; simp [parseLoop]
  | succ n ih =>
    intro f
    obtain ⟨hn, hnone, hsome⟩ := parseOne_buf lib f
    simp only [parseLoop]
    by_cases hs : (f.parseOne lib).1 = true
    · have herr : (f.parseOne lib).2.1 = none := by
        cases he : (f.parseOne lib).2.1 with
        | none => rfl
        | some e => have := (hsome e he).1; rw [hs] at this; cases this
      simp only [hs, if_true]
      obtain ⟨ihn, ihnone, ihsome⟩ := ih (f.parseOne lib).2.2
      rw [hnone herr, hn] at *
      exact ⟨ihn, ihnone, ihsome⟩
    · simp only [hs]
      refine ⟨hn, hnone, fun e he => (hsome e he).2⟩

/-- The output `argumentHandling` returns: the diagnostic text of the error
when it returns one, and nothing when it returns none. -/
theorem argumentHandling_output (lib : FlagLib) (binName : List Char)
    (args : List (List Char)) :
    ((argumentHandling lib binName args).2.2 = none →
      (argumentHandling lib binName args).2.1 = []) ∧
    (∀ err, (argumentHandling lib binName args).2.2 = some err →
      (argumentHandling lib binName args).2.1 = diagnostic lib binName err) := by
  obtain ⟨_, hnone, hsome⟩ := parseLoop_buf lib (args.length + 1)
    ⟨binName, ⟨"default".toList, 8080, "Anonymous".toList, []⟩, args, []⟩
  dsimp only [argumentHandling, FlagSet.Parse]
  generalize parseLoop lib (args.length + 1)
    ⟨binName, ⟨"default".toList, 8080, "Anonymous".toList, []⟩, args, []⟩ = r at hnone hsome
  rcases r with ⟨_ | e, f⟩
  · constructor
    · intro _
      exact hnone rfl
    · intro err h
      cases h
  · constructor
    · intro h
      cases h
    · intro err h
      have : e = err := Option.some.inj h
      subst this
      simpa using hsome e rfl

/-! ## Theorems: session establishment -/

theorem filter_map_log (p : Event → Bool) (hp : ∀ t, p (.log t) = false)
    (f : Multiaddr → List Char) (l : List Multiaddr) :
    (l.map fun la => Event.log (f la)).filter p = [] := by
  induction l with
  | nil => rfl
  | cons a l ih => simp [hp, ih]

/-- What `startPeerAndConnect` returns when it fails. -/
theorem startPeerAndConnect_fails (net : Transport) (h : Host) (hostAdr : List Char)
    (err : Error) (hfail : ConnectFails net h hostAdr err) :
    (startPeerAndConnect net h hostAdr).2 = (none, some err) := by
  rcases hfail with h1 | ⟨adr, h1, h2⟩ | ⟨adr, info, h1, h2, h3⟩
  · simp only [startPeerAndConnect, h1]
  · simp only [startPeerAndConnect, h1, h2]
  · simp only [startPeerAndConnect, h1, h2, h3]

/-- Every failure of `startPeerAndConnect` is one of the three. -/
theorem startPeerAndConnect_error_cause (net : Transport) (h : Host) (hostAdr : List Char)
    (err : Error) (herr : (startPeerAndConnect net h hostAdr).2.2 = some err) :
    ConnectFails net h hostAdr err := by
  unfold startPeerAndConnect at herr
  unfold ConnectFails
  cases h1 : net.NewMultiaddr hostAdr with
  | error e =>
    simp only [h1, Option.some.injEq] at herr
    subst herr
    exact Or.inl rfl
  | ok adr =>
    cases h2 : net.AddrInfoFromP2pAddr adr with
    | error e =>
      simp only [h1, h2, Option.some.injEq] at herr
      subst herr
      exact Or.inr (Or.inl ⟨adr, rfl, h2⟩)
    | ok info =>
      cases h3 : h.NewStream info.ID "/chat/1.0.0".toList with
      | error e =>
        simp only [h1, h2, h3, Option.some.injEq] at herr
        subst herr
        exact Or.inr (Or.inr ⟨adr, info, rfl, h2, h3⟩)
      | ok st =>
        simp only [h1, h2, h3] at herr
        cases herr

/-- The events of `startPeerAndConnect`, by kind. -/
theorem startPeerAndConnect_events (net : Transport) (h : Host) (hostAdr : List Char) :
    (startPeerAndConnect net h hostAdr).1.filter Event.isSetStreamHandler = [] ∧
    (startPeerAndConnect net h hostAdr).1.filter Event.isGo = [] ∧
    (startPeerAndConnect net h hostAdr).1.filter Event.isNewMultiaddr
      = [.newMultiaddr hostAdr] ∧
    ((startPeerAndConnect net h hostAdr).1.filter Event.isNewStream).length ≤ 1 ∧
    (∀ e ∈ (startPeerAndConnect net h hostAdr).1.filter Event.isNewStream,
      ∃ id, e = .newStream id "/chat/1.0.0".toList) := by
  have hg := filter_map_log Event.isGo (fun _ => rfl) (fun la => " - ".toList ++ la) h.Addrs
  have hs := filter_map_log Event.isSetStreamHandler (fun _ => rfl)
    (fun la => " - ".toList ++ la) h.Addrs
  have hm := filter_map_log Event.isNewMultiaddr (fun _ => rfl)
    (fun la => " - ".toList ++ la) h.Addrs
  have hn := filter_map_log Event.isNewStream (fun _ => rfl)
    (fun la => " - ".toList ++ la) h.Addrs
  cases h1 : net.NewMultiaddr hostAdr with
  | error e =>
    simp only [startPeerAndConnect, h1, List.filter_append, hg, hs, hm, hn]
    simp [List.filter, Event.isSetStreamHandler, Event.isGo, Event.isNewMultiaddr,
      Event.isNewStream]
  | ok adr =>
    cases h2 : net.AddrInfoFromP2pAddr adr with
    | error e =>
      simp only [startPeerAndConnect, h1, h2, List.filter_append, hg, hs, hm, hn]
      simp [List.filter, Event.isSetStreamHandler, Event.isGo, Event.isNewMultiaddr,
        Event.isNewStream]
    | ok info =>
      cases h3 : h.NewStream info.ID "/chat/1.0.0".toList with
      | error e =>
        simp only [startPeerAndConnect, h1, h2, h3, List.filter_append, hg, hs, hm, hn]
        simp [List.filter, Event.isSetStreamHandler, Event.isGo, Event.isNewMultiaddr,
          Event.isNewStream]
      | ok st =>
        simp only [startPeerAndConnect, h1, h2, h3, List.filter_append, hg, hs, hm, hn]
        simp [List.filter, Event.isSetStreamHandler, Event.isGo, Event.isNewMultiaddr,
          Event.isNewStream]

/-- C5: in connect mode, when `startPeerAndConnect` fails with an error (the
address string does not parse, the peer identity cannot be extracted, or
`NewStream` fails), it returns that error with a nil reader/writer, and
`dispatchUser` launches no goroutine (neither `readData` nor `writeData`)
and registers no stream handler; the only failures of `startPeerAndConnect`
are these three. -/
theorem failed_connect_starts_no_pump (net : Transport) (h : Host) (user : User) (err : Error)
    (hmode : user.Host ≠ "default".toList)
    (hfail : ConnectFails net h user.Host err) :
    (startPeerAndConnect net h user.Host).2 = (none, some err) ∧
    (∀ e ∈ dispatchUser net user h, e.isGo = false ∧ e.isSetStreamHandler = false) ∧
    (∀ err', (startPeerAndConnect net h user.Host).2.2 = some err' →
      ConnectFails net h user.Host err') := by
  have hret := startPeerAndConnect_fails net h user.Host err hfail
  obtain ⟨hset, hgo, _⟩ := startPeerAndConnect_events net h user.Host
  refine ⟨hret, ?_, fun err' h' => startPeerAndConnect_error_cause net h user.Host err' h'⟩
  have hd : dispatchUser net user h = (startPeerAndConnect net h user.Host).1 ++ [.log err] := by
    simp only [dispatchUser, if_neg hmode, hret]
  intro e he
  rw [hd, List.mem_append] at he
  rcases he with he | he
  · constructor
    · by_contra hc
      have : e ∈ (startPeerAndConnect net h user.Host).1.filter Event.isGo :=
        List.mem_filter.mpr ⟨he, by simpa using hc⟩
      rw [hgo] at this
      cases this
    · by_contra hc
      have : e ∈ (startPeerAndConnect net h user.Host).1.filter Event.isSetStreamHandler :=
        List.mem_filter.mpr ⟨he, by simpa using hc⟩
      rw [hset] at this
      cases this
  · have : e = .log err := by simpa using he
    subst this
    exact ⟨rfl, rfl⟩

theorem failed_connect_starts_no_pump_witness :
    testAddr ≠ "default".toList ∧
    ConnectFails sampleNet unreachableHost testAddr "dial failed".toList ∧
    (startPeerAndConnect sampleNet unreachableHost testAddr).2
      = (none, some "dial failed".toList) ∧
    (∀ e ∈ dispatchUser sampleNet ⟨testAddr, 8080, "Anonymous".toList, []⟩ unreachableHost,
      e.isGo = false ∧ e.isSetStreamHandler = false) := by
  have hm : testAddr ≠ "default".toList := by decide
  have hf : ConnectFails sampleNet unreachableHost testAddr "dial failed".toList :=
    Or.inr (Or.inr ⟨testAddr, ⟨"QmPeer".toList, [testAddr]⟩, rfl, rfl, rfl⟩)
  have h := failed_connect_starts_no_pump sampleNet unreachableHost
    ⟨testAddr, 8080, "Anonymous".toList, []⟩ "dial failed".toList hm hf
  exact ⟨hm, hf, h.1, h.2.1⟩

/-- The events of `startPeerAndHost`, by kind. -/
theorem startPeerAndHost_events (net : Transport) (h : Host) (handler : StreamHandler) :
    (startPeerAndHost net h handler).filter Event.isSetStreamHandler
      = [.setStreamHandler "/chat/1.0.0".toList handler] ∧
    (startPeerAndHost net h handler).filter Event.isGo = [] ∧
    (startPeerAndHost net h handler).filter Event.isNewMultiaddr = [] ∧
    (startPeerAndHost net h handler).filter Event.isNewStream = [] ∧
    (startPeerAndHost net h handler).filter Event.isAddAddrs = [] := by
  unfold startPeerAndHost
  by_cases hp : findPort net h.ListenAddresses = []
  · simp [hp, List.filter, Event.isSetStreamHandler, Event.isGo, Event.isNewMultiaddr,
      Event.isNewStream, Event.isAddAddrs]
  · simp [hp, List.filter, Event.isSetStreamHandler, Event.isGo, Event.isNewMultiaddr,
      Event.isNewStream, Event.isAddAddrs]

/-- What `dispatchUser` does in each mode. -/
theorem dispatchUser_listen (net : Transport) (user : User) (h : Host)
    (hmode : user.Host = "default".toList) :
    dispatchUser net user h = startPeerAndHost net h .handleStream := by
  simp only [dispatchUser, if_pos hmode]

theorem dispatchUser_connect_filter (net : Transport) (user : User) (h : Host)
    (hmode : user.Host ≠ "default".toList) (p : Event → Bool)
    (hlog : ∀ t, p (.log t) = false) (hgo : ∀ g, p (.go g) = false) :
    (dispatchUser net user h).filter p = (startPeerAndConnect net h user.Host).1.filter p := by
  simp only [dispatchUser, if_neg hmode]
  cases (startPeerAndConnect net h user.Host).2.2 with
  | some err => simp [List.filter_append, hlog]
  | none => simp [List.filter_append, hgo]

/-- C10: `dispatchUser` takes the listen path exactly when Host is
"default": then it registers `handleStream` under "/chat/1.0.0" (one
registration) and neither parses an address, stores addresses, opens a
stream nor starts a pump itself; otherwise it takes the connect path: it
passes Host to `startPeerAndConnect`, whose one address parse is of Host, it
registers no stream handler, it opens at most one stream, and every stream
it opens is under "/chat/1.0.0". -/
theorem dispatchUser_mode_selection (net : Transport) (user : User) (h : Host) :
    (user.Host = "default".toList →
      dispatchUser net user h = startPeerAndHost net h .handleStream ∧
      (dispatchUser net user h).filter Event.isSetStreamHandler
        = [.setStreamHandler "/chat/1.0.0".toList .handleStream] ∧
      (dispatchUser net user h).filter Event.isNewMultiaddr = [] ∧
      (dispatchUser net user h).filter Event.isAddAddrs = [] ∧
      (dispatchUser net user h).filter Event.isNewStream = [] ∧
      (dispatchUser net user h).filter Event.isGo = []) ∧
    (user.Host ≠ "default".toList →
      (dispatchUser net user h).filter Event.isSetStreamHandler = [] ∧
      (dispatchUser net user h).filter Event.isNewMultiaddr = [.newMultiaddr user.Host] ∧
      ((dispatchUser net user h).filter Event.isNewStream).length ≤ 1 ∧
      (∀ e ∈ (dispatchUser net user h).filter Event.isNewStream,
        ∃ id, e = .newStream id "/chat/1.0.0".toList)) ∧
    ((∃ e ∈ dispatchUser net user h, e.isSetStreamHandler = true)
      ↔ user.Host = "default".toList) ∧
    ((∃ e ∈ dispatchUser net user h, e.isNewMultiaddr = true)
      ↔ user.Host ≠ "default".toList) := by
  have hlisten : user.Host = "default".toList →
      dispatchUser net user h = startPeerAndHost net h .handleStream ∧
      (dispatchUser net user h).filter Event.isSetStreamHandler
        = [.setStreamHandler "/chat/1.0.0".toList .handleStream] ∧
      (dispatchUser net user h).filter Event.isNewMultiaddr = [] ∧
      (dispatchUser net user h).filter Event.isAddAddrs = [] ∧
      (dispatchUser net user h).filter Event.isNewStream = [] ∧
      (dispatchUser net user h).filter Event.isGo = [] := by
    intro hmode
    obtain ⟨h1, h2, h3, h4, h5⟩ := startPeerAndHost_events net h .handleStream
    rw [dispatchUser_listen net user h hmode]
    exact ⟨rfl, h1, h3, h5, h4, h2⟩
  have hconnect : user.Host ≠ "default".toList →
      (dispatchUser net user h).filter Event.isSetStreamHandler = [] ∧
      (dispatchUser net user h).filter Event.isNewMultiaddr = [.newMultiaddr user.Host] ∧
      ((dispatchUser net user h).filter Event.isNewStream).length ≤ 1 ∧
      (∀ e ∈ (dispatchUser net user h).filter Event.isNewStream,
        ∃ id, e = .newStream id "/chat/1.0.0".toList) := by
    intro hmode
    obtain ⟨h1, _, h3, h4, h5⟩ := startPeerAndConnect_events net h user.Host
    rw [dispatchUser_connect_filter net user h hmode _ (fun _ => rfl) (fun _ => rfl),
      dispatchUser_connect_filter net user h hmode _ (fun _ => rfl) (fun _ => rfl),
      dispatchUser_connect_filter net user h hmode _ (fun _ => rfl) (fun _ => rfl)]
    exact ⟨h1, h3, h4, h5⟩
  refine ⟨hlisten, hconnect, ?_, ?_⟩
  · constructor
    · rintro ⟨e, he, hp⟩
      by_contra hmode
      have : e ∈ (dispatchUser net user h).filter Event.isSetStreamHandler :=
        List.mem_filter.mpr ⟨he, hp⟩
      rw [(hconnect hmode).1] at this
      cases this
    · intro hmode
      have hm : Event.setStreamHandler "/chat/1.0.0".toList .handleStream
          ∈ (dispatchUser net user h).filter Event.isSetStreamHandler := by
        rw [(hlisten hmode).2.1]; exact List.mem_singleton.mpr rfl
      exact ⟨_, (List.mem_filter.mp hm).1, rfl⟩
  · constructor
    · rintro ⟨e, he, hp⟩ hmode
      have : e ∈ (dispatchUser net user h).filter Event.isNewMultiaddr :=
        List.mem_filter.mpr ⟨he, hp⟩
      rw [(hlisten hmode).2.2.1] at this
      cases this
    · intro hmode
      have hm : Event.newMultiaddr user.Host
          ∈ (dispatchUser net user h).filter Event.isNewMultiaddr := by
        rw [(hconnect hmode).2.1]; exact List.mem_singleton.mpr rfl
      exact ⟨_, (List.mem_filter.mp hm).1, rfl⟩

/-! ## Theorems: exit codes -/

/-- The events of `makeHost` start no pump and register no handler. -/
theorem makeHost_events (net : Transport) (port : Int) :
    ∀ e ∈ (makeHost net port).1, e.isGo = false ∧ e.isSetStreamHandler = false := by
  intro e he
  unfold makeHost at he
  cases hk : net.GenerateKeyPair with
  | some err =>
    simp only [hk, List.mem_singleton] at he
    subst he
    exact ⟨rfl, rfl⟩
  | none =>
    simp only [hk, List.mem_singleton] at he
    subst he
    exact ⟨rfl, rfl⟩

/-- C6, as the code has it: when `argumentHandling` fails, the output it
returns is the diagnostic text (the usage text for a help request, the error
line followed by the usage text for any other parse error; never empty), and
`main` prints it and exits with a non-zero code: 2 for a help request, 1 for
any other parse error; when `makeHost` returns an error, `startPeerToPeer`
logs it and returns without dispatching, `main` returns, and the process
exits with code 0, which differs from both parse-failure codes. -/
theorem main_exit_codes (lib : FlagLib) (net : Transport) (binName : List Char)
    (args : List (List Char)) :
    (∀ err, (argumentHandling lib binName args).2.2 = some err →
      (argumentHandling lib binName args).2.1 = diagnostic lib binName err ∧
      diagnostic lib binName err ≠ [] ∧
      (err = .ErrHelp →
        main lib net binName args
          = ⟨[.stdout (defaultUsage lib binName ++ ['\n'])], .exited 2⟩) ∧
      (err ≠ .ErrHelp →
        main lib net binName args
          = ⟨[.stdout ("got error: ".toList ++ lib.errorText err ++ ['\n']),
              .stdout ("output:\n ".toList
                ++ (lib.errorText err ++ ['\n'] ++ defaultUsage lib binName) ++ ['\n'])],
             .exited 1⟩) ∧
      (main lib net binName args).status.exitCode
        = some (if err = .ErrHelp then 2 else 1)) ∧
    (∀ user err, (argumentHandling lib binName args).2.2 = none →
      (argumentHandling lib binName args).1 = some user →
      (makeHost net user.Port).2 = .error err →
      main lib net binName args = ⟨(makeHost net user.Port).1 ++ [.log err], .exited 0⟩ ∧
      (main lib net binName args).status.exitCode = some 0 ∧
      (∀ e ∈ (main lib net binName args).events,
        e.isGo = false ∧ e.isSetStreamHandler = false)) := by
  constructor
  · intro err herr
    have hout := (argumentHandling_output lib binName args).2 err herr
    have hhelp : err = .ErrHelp →
        main lib net binName args
          = ⟨[.stdout (defaultUsage lib binName ++ ['\n'])], .exited 2⟩ := by
      intro hh
      have hd : diagnostic lib binName err = defaultUsage lib binName := by
        rw [diagnostic, if_pos hh]
      simp only [main, herr, hh, if_true]
      rw [hout, hd]
    have hother : err ≠ .ErrHelp →
        main lib net binName args
          = ⟨[.stdout ("got error: ".toList ++ lib.errorText err ++ ['\n']),
              .stdout ("output:\n ".toList
                ++ (lib.errorText err ++ ['\n'] ++ defaultUsage lib binName) ++ ['\n'])],
             .exited 1⟩ := by
      intro hh
      have hd : diagnostic lib binName err
          = lib.errorText err ++ ['\n'] ++ defaultUsage lib binName := by
        rw [diagnostic, if_neg hh]
      simp only [main, herr, hh, if_false]
      rw [hout, hd]
    refine ⟨hout, diagnostic_ne_nil lib binName err, hhelp, hother, ?_⟩
    by_cases hh : err = .ErrHelp
    · rw [hhelp hh, if_pos hh]; rfl
    · rw [hother hh, if_neg hh]; rfl
  · intro user err herr huser hmk
    have hm : main lib net binName args
        = ⟨(makeHost net user.Port).1 ++ [.log err], .exited 0⟩ := by
      simp only [main, herr, huser, startPeerToPeer, hmk]
    rw [hm]
    refine ⟨rfl, rfl, ?_⟩
    intro e he
    rcases List.mem_append.mp he with h | h
    · exact makeHost_events net user.Port e h
    · have : e = .log err := by simpa using h
      subst this
      exact ⟨rfl, rfl⟩

theorem main_exit_codes_witness :
    (argumentHandling sampleLib "main".toList ["-x".toList]).2.2
      = some (.notDefined "x".toList) ∧
    main sampleLib sampleNet "main".toList ["-x".toList]
      = ⟨[.stdout "got error: flag error\n".toList,
          .stdout "output:\n flag error\nUsage of main:\n  -host string\n\n".toList],
         .exited 1⟩ ∧
    (argumentHandling sampleLib "main".toList ["-h".toList]).2.2 = some .ErrHelp ∧
    main sampleLib sampleNet "main".toList ["-h".toList]
      = ⟨[.stdout "Usage of main:\n  -host string\n\n".toList], .exited 2⟩ ∧
    (makeHost failingNet 8080).2.error? = some "key generation failed".toList ∧
    main sampleLib failingNet "main".toList []
      = ⟨[.log "key generation failed".toList, .log "key generation failed".toList],
          .exited 0⟩ := by
  have h1 := ((main_exit_codes sampleLib sampleNet "main".toList ["-x".toList]).1
    (.notDefined "x".toList) (by decide)).2.2.2.1 (by decide)
  have h2 := ((main_exit_codes sampleLib sampleNet "main".toList ["-h".toList]).1
    .ErrHelp (by decide)).2.2.1 rfl
  have h3 := ((main_exit_codes sampleLib failingNet "main".toList []).2
    ⟨"default".toList, 8080, "Anonymous".toList, []⟩ "key generation failed".toList
    (by decide) (by decide) rfl).1
  refine ⟨by decide, ?_, by decide, ?_, by decide, h3⟩
  · rw [h1]; decide
  · rw [h2]; decide

/-- C6 as stated fails: with no arguments on a machine where the listen port
is taken, `libp2p.New` returns an error, `makeHost` fails, and the process
exits with code 0. -/
theorem main_setup_failure_exits_zero :
    (argumentHandling sampleLib "main".toList []).2.2 = none ∧
    (makeHost busyPortNet 8080).2.error? = some "failed to listen on any addresses".toList ∧
    (main sampleLib busyPortNet "main".toList []).status = .exited 0 ∧
    (main sampleLib busyPortNet "main".toList []).status.exitCode = some 0 ∧
    ¬ ((main sampleLib busyPortNet "main".toList []).status.exitCode ≠ some 0) := by
  decide

/-- When `makeHost` ends in a panic, so does the process, with no dispatch. -/
theorem main_makeHost_panic (lib : FlagLib) (net : Transport) (binName : List Char)
    (args : List (List Char)) (user : User)
    (herr : (argumentHandling lib binName args).2.2 = none)
    (huser : (argumentHandling lib binName args).1 = some user)
    (hmk : (makeHost net user.Port).2 = .panic) :
    main lib net binName args = ⟨(makeHost net user.Port).1, .panicked⟩ := by
  simp only [main, herr, huser, startPeerToPeer, hmk]

/-- With `-port 65536` the listen address does not parse, its error is
dropped, `libp2p.New` gets a nil address and panics: exit code 2. -/
theorem main_port_out_of_range_panics :
    (main sampleLib strictNet "main".toList ["-port".toList, "65536".toList]).status
      = .panicked ∧
    (main sampleLib strictNet "main".toList
      ["-port".toList, "65536".toList]).status.exitCode = some 2 := by
  decide

/-! ## Theorems: sessions -/

theorem foldl_apply (evs : List Event) :
    ∀ p : Process, evs.foldl Process.apply p
      = ⟨p.dispatched, (evs.filterMap Event.handlerOf).reverse ++ p.handlers,
          p.pumps ++ evs.filterMap Event.goOf⟩ := by
  induction evs with
  | nil => intro p; simp
  | cons e evs ih =>
    intro p
    rw [List.foldl_cons, ih]
    cases e <;> simp [Process.apply, Event.handlerOf, Event.goOf]

theorem filterMap_goOf_of_filter (l : List Event) (h : l.filter Event.isGo = []) :
    l.filterMap Event.goOf = [] := by
  induction l with
  | nil => rfl
  | cons e l ih =>
    cases e <;> simp_all [List.filter, Event.isGo, Event.goOf]

theorem filterMap_handlerOf_of_filter (l : List Event)
    (h : l.filter Event.isSetStreamHandler = []) :
    l.filterMap Event.handlerOf = [] := by
  induction l with
  | nil => rfl
  | cons e l ih =>
    cases e <;> simp_all [List.filter, Event.isSetStreamHandler, Event.handlerOf]

/-- The registrations and goroutines of `dispatchUser` in listen mode. -/
theorem dispatchUser_listen_effects (net : Transport) (user : User) (h : Host)
    (hmode : user.Host = "default".toList) :
    (dispatchUser net user h).filterMap Event.handlerOf = [(chatProtocol, .handleStream)] ∧
    (dispatchUser net user h).filterMap Event.goOf = [] := by
  rw [dispatchUser_listen net user h hmode]
  unfold startPeerAndHost
  by_cases hp : findPort net h.ListenAddresses = []
  · simp [hp, Event.handlerOf, Event.goOf, chatProtocol]
  · simp [hp, Event.handlerOf, Event.goOf, chatProtocol]

/-- The registrations and goroutines of `dispatchUser` in connect mode. -/
theorem dispatchUser_connect_effects (net : Transport) (user : User) (h : Host)
    (hmode : user.Host ≠ "default".toList) :
    (dispatchUser net user h).filterMap Event.handlerOf = [] ∧
    ∀ g ∈ (dispatchUser net user h).filterMap Event.goOf,
      g.stream = (startPeerAndConnect net h user.Host).2.1 := by
  obtain ⟨hs, hg, _⟩ := startPeerAndConnect_events net h user.Host
  have hs' := filterMap_handlerOf_of_filter _ hs
  have hg' := filterMap_goOf_of_filter _ hg
  simp only [dispatchUser, if_neg hmode]
  cases (startPeerAndConnect net h user.Host).2.2 with
  | some err => simp [List.filterMap_append, hs', hg', Event.handlerOf, Event.goOf]
  | none =>
    simp [List.filterMap_append, hs', hg', Event.handlerOf, Event.goOf, Goroutine.stream]

theorem activeSessions_eq_card (p : Process) :
    activeSessions p = p.streams.toFinset.card := by
  simp [activeSessions, Process.streams, List.card_toFinset]

theorem lookup_mem {α β : Type} [BEq α] [LawfulBEq α] (k : α) (v : β) :
    ∀ l : List (α × β), l.lookup k = some v → (k, v) ∈ l := by
  intro l
  induction l with
  | nil => intro h; simp at h
  | cons x l ih =>
    intro h
    obtain ⟨k', v'⟩ := x
    by_cases hk : (k == k') = true
    · have hkk : k = k' := eq_of_beq hk
      subst hkk
      rw [List.lookup_cons, hk] at h
      simp at h
      simp [h]
    · have hne : (k == k') = false := by simpa using hk
      rw [List.lookup_cons, hne] at h
      exact List.mem_cons_of_mem _ (ih h)

/-- In connect mode no handler is ever registered and every running pump
works on the reader/writer `startPeerAndConnect` returned. -/
theorem connect_invariant (net : Transport) (user : User) (h : Host)
    (hmode : user.Host ≠ "default".toList) :
    ∀ (steps : List Step) (p : Process),
      (p.handlers = [] ∧ (p.dispatched = false → p.pumps = []) ∧
        ∀ g ∈ p.pumps, g.stream = (startPeerAndConnect net h user.Host).2.1) →
      ((steps.foldl (Process.step net user h) p).handlers = [] ∧
        ∀ g ∈ (steps.foldl (Process.step net user h) p).pumps,
          g.stream = (startPeerAndConnect net h user.Host).2.1) := by
  intro steps
  induction steps with
  | nil => intro p hp; exact ⟨hp.1, hp.2.2⟩
  | cons st steps ih =>
    intro p hp
    obtain ⟨hh, hd, hg⟩ := hp
    rw [List.foldl_cons]
    apply ih
    cases st with
    | dispatch =>
      by_cases hdis : p.dispatched = true
      · simp only [Process.step, hdis, if_true]
        exact ⟨hh, fun hc => by simp [hdis] at hc, hg⟩
      · have hdis' : p.dispatched = false := by simpa using hdis
        obtain ⟨he1, he2⟩ := dispatchUser_connect_effects net user h hmode
        simp only [Process.step, hdis', foldl_apply, he1, hh, hd hdis']
        refine ⟨by simp, by simp, ?_⟩
        intro g hgm
        exact he2 g (by simpa using hgm)
    | accept pid s =>
      have hst : Process.step net user h p (.accept pid s) = p := by
        simp [Process.step, hh]
      rw [hst]
      exact ⟨hh, hd, hg⟩
    | pumpEnds g =>
      simp only [Process.step]
      refine ⟨hh, ?_, fun g' hg' => hg g' (List.erase_subset _ _ hg')⟩
      intro hdis
      simp [hd hdis]

/-- In listen mode every registration is for the chat protocol, and the
number of sessions with a running pump is at most the number of inbound
streams accepted for it. -/
theorem listen_invariant (net : Transport) (user : User) (h : Host)
    (hmode : user.Host = "default".toList) :
    ∀ (steps : List Step) (p : Process) (n : Nat),
      ((∀ x ∈ p.handlers, x.1 = chatProtocol) ∧ activeSessions p ≤ n) →
      activeSessions (steps.foldl (Process.step net user h) p)
        ≤ n + acceptCount chatProtocol steps := by
  intro steps
  induction steps with
  | nil => intro p n hp; simpa [acceptCount] using hp.2
  | cons st steps ih =>
    intro p n hp
    obtain ⟨hh, hn⟩ := hp
    rw [List.foldl_cons]
    cases st with
    | dispatch =>
      have hc : acceptCount chatProtocol (Step.dispatch :: steps)
          = acceptCount chatProtocol steps := by simp [acceptCount]
      rw [hc]
      apply ih
      by_cases hdis : p.dispatched = true
      · simp only [Process.step, hdis, if_true]
        exact ⟨hh, hn⟩
      · have hdis' : p.dispatched = false := by simpa using hdis
        obtain ⟨he1, he2⟩ := dispatchUser_listen_effects net user h hmode
        simp only [Process.step, hdis', foldl_apply, he1, he2]
        constructor
        · intro x hx
          simp at hx
          rcases hx with rfl | hx
          · rfl
          · exact hh x hx
        · simpa [activeSessions] using hn
    | accept pid s =>
      cases hl : p.handlers.lookup pid with
      | none =>
        have hle : n + acceptCount chatProtocol steps
            ≤ n + acceptCount chatProtocol (Step.accept pid s :: steps) := by
          simp only [acceptCount, List.filter_cons]
          split <;> simp
        refine le_trans ?_ hle
        apply ih
        simp only [Process.step, hl]
        exact ⟨hh, hn⟩
      | some handler =>
        have hpid : pid = chatProtocol := hh _ (lookup_mem pid handler _ hl)
        have hc : acceptCount chatProtocol (Step.accept pid s :: steps)
            = acceptCount chatProtocol steps + 1 := by
          simp [acceptCount, hpid]
        rw [hc, ← Nat.add_assoc, Nat.add_right_comm]
        apply ih
        cases handler
        simp only [Process.step, hl, StreamHandler.call, handleStream, foldl_apply]
        constructor
        · intro x hx
          simp [Event.handlerOf] at hx
          exact hh x hx
        · rw [activeSessions_eq_card] at hn ⊢
          have hsub : (Process.streams ⟨p.dispatched,
              (List.filterMap Event.handlerOf [Event.log "Got a new stream!".toList,
                Event.go (.readData (some s)), Event.go (.writeData (some s))]).reverse
                ++ p.handlers,
              p.pumps ++ List.filterMap Event.goOf [Event.log "Got a new stream!".toList,
                Event.go (.readData (some s)), Event.go (.writeData (some s))]⟩).toFinset
              ⊆ insert s p.streams.toFinset := by
            intro x hx
            simp [Process.streams, Event.goOf, Goroutine.stream, List.filterMap_append] at hx ⊢
            rcases hx with hx | hx
            · exact Or.inr hx
            · exact Or.inl hx
          calc _ ≤ (insert s p.streams.toFinset).card := Finset.card_le_card hsub
            _ ≤ p.streams.toFinset.card + 1 := Finset.card_insert_le _ _
            _ ≤ n + 1 := by omega
    | pumpEnds g =>
      have hc : acceptCount chatProtocol (Step.pumpEnds g :: steps)
          = acceptCount chatProtocol steps := by simp [acceptCount]
      rw [hc]
      apply ih
      simp only [Process.step]
      refine ⟨hh, le_trans ?_ hn⟩
      rw [activeSessions_eq_card, activeSessions_eq_card]
      apply Finset.card_le_card
      intro x hx
      simp only [Process.streams, List.mem_toFinset, List.mem_filterMap] at hx ⊢
      obtain ⟨g', hg', hx⟩ := hx
      exact ⟨g', List.erase_subset _ _ hg', hx⟩

/-- C7, as the code has it: in every state reachable from startup by
dispatch, acceptance of inbound streams and ending of pump directions, the
number of sessions with a running pump is at most one in connect mode; in
host mode `handleStream` starts a pump pair for every inbound stream
accepted, and the number is at most the number of streams accepted for the
chat protocol. -/
theorem active_sessions_bound (net : Transport) (user : User) (h : Host)
    (steps : List Step) :
    activeSessions (Process.run net user h steps)
      ≤ if user.Host = "default".toList then acceptCount chatProtocol steps else 1 := by
  by_cases hmode : user.Host = "default".toList
  · rw [if_pos hmode]
    have := listen_invariant net user h hmode steps ⟨false, [], []⟩ 0
      ⟨by simp, by simp [activeSessions]⟩
    simpa [Process.run] using this
  · rw [if_neg hmode]
    obtain ⟨_, hg⟩ := connect_invariant net user h hmode steps ⟨false, [], []⟩
      ⟨rfl, fun _ => rfl, by simp⟩
    rw [activeSessions_eq_card]
    change (Process.streams (Process.run net user h steps)).toFinset.card ≤ 1
    cases hrw : (startPeerAndConnect net h user.Host).2.1 with
    | none =>
      have : Process.streams (Process.run net user h steps) = [] := by
        simp only [Process.streams, List.filterMap_eq_nil_iff]
        intro g hgm
        rw [hg g hgm, hrw]
      rw [this]; simp
    | some s =>
      have hsub : (Process.streams (Process.run net user h steps)).toFinset ⊆ {s} := by
        intro x hx
        simp only [Process.streams, List.mem_toFinset, List.mem_filterMap] at hx
        obtain ⟨g, hgm, hx⟩ := hx
        rw [hg g hgm, hrw] at hx
        simpa using (Option.some.inj hx).symm
      calc _ ≤ ({s} : Finset Stream).card := Finset.card_le_card hsub
        _ = 1 := Finset.card_singleton s

/-- C7 as stated fails in host mode: after dispatch, two inbound streams
accepted for the chat protocol leave two sessions with running pumps. -/
theorem host_mode_two_active_sessions :
    activeSessions (Process.run sampleNet ⟨"default".toList, 8080, "Anonymous".toList, []⟩
      sampleHost [.dispatch, .accept chatProtocol 1, .accept chatProtocol 2]) = 2 ∧
    ¬ (activeSessions (Process.run sampleNet ⟨"default".toList, 8080, "Anonymous".toList, []⟩
      sampleHost [.dispatch, .accept chatProtocol 1, .accept chatProtocol 2]) ≤ 1) := by
  decide

end P2PChat
